import Mathlib

/-!
# Verification of the `vegetation_loss` scripts

Shallow embedding, in Lean 4, of the bespoke logic of the three Python
scripts of the repository:

* `scripts/qa/ccd_break_filter_to_raster.py` — break-point selection per
  pixel, rasterisation of break dates, QGIS style entries;
* `scripts/data_acquisition/gee_download_S2_tile_36_parts.py` — the
  all-bands-zero → NODATA step of `combine_tiffs_to_mosaic`, and the
  submit/await/mosaic ordering of `process_and_mosaic_images`;
* `scripts/data_exploration/Extration_S2_2N_observations.py` —
  `processar_pixel` and `expandir_listas_em_colunas`.

Machine floats of the source are modelled as exact rationals `ℚ`,
pandas timestamps (milliseconds since the Unix epoch, UTC) as `ℤ`,
and DataFrames as lists.  Pandas stable sorts (`sort_values`,
`Series.nlargest` with its default `keep='first'`) are modelled by
`List.insertionSort`, which is stable with the conventions used below.
-/

namespace VegetationLoss

/-! ## Generic ordering helpers -/

/-- Descending order on `ℤ`, the order produced by
`sort_values(ascending=False)` / `Series.nlargest`. -/
def zdesc (a b : ℤ) : Prop := b ≤ a

instance : DecidableRel zdesc := fun a b => inferInstanceAs (Decidable (b ≤ a))

instance : IsTotal ℤ zdesc := ⟨fun a b => le_total b a⟩

instance : IsTrans ℤ zdesc := ⟨fun _ _ _ h1 h2 => le_trans h2 h1⟩

instance : IsAntisymm ℤ zdesc := ⟨fun _ _ h1 h2 => le_antisymm h2 h1⟩

/-- Ascending sort of a list of integers. -/
def sortAsc (l : List ℤ) : List ℤ := List.insertionSort (· ≤ ·) l

/-- Descending sort of a list of integers. -/
def sortDesc (l : List ℤ) : List ℤ := List.insertionSort zdesc l

/-! Basic facts about the two integer sorts. -/

lemma sorted_sortAsc (l : List ℤ) : (sortAsc l).Sorted (· ≤ ·) :=
  List.sorted_insertionSort _ l

lemma perm_sortAsc (l : List ℤ) : List.Perm (sortAsc l) l :=
  List.perm_insertionSort _ l

lemma sorted_sortDesc (l : List ℤ) : (sortDesc l).Sorted zdesc :=
  List.sorted_insertionSort _ l

lemma perm_sortDesc (l : List ℤ) : List.Perm (sortDesc l) l :=
  List.perm_insertionSort _ l

lemma sortAsc_congr {l1 l2 : List ℤ} (h : List.Perm l1 l2) :
    sortAsc l1 = sortAsc l2 :=
  List.eq_of_perm_of_sorted ((perm_sortAsc l1).trans (h.trans (perm_sortAsc l2).symm))
    (sorted_sortAsc l1) (sorted_sortAsc l2)

lemma sortDesc_congr {l1 l2 : List ℤ} (h : List.Perm l1 l2) :
    sortDesc l1 = sortDesc l2 :=
  List.eq_of_perm_of_sorted ((perm_sortDesc l1).trans (h.trans (perm_sortDesc l2).symm))
    (sorted_sortDesc l1) (sorted_sortDesc l2)

lemma sortDesc_eq_reverse_sortAsc (l : List ℤ) :
    sortDesc l = (sortAsc l).reverse := by
  refine List.eq_of_perm_of_sorted ?_ (sorted_sortDesc l) ?_
  · exact (perm_sortDesc l).trans
      ((perm_sortAsc l).symm.trans (List.reverse_perm (sortAsc l)).symm)
  · exact List.pairwise_reverse.mpr (sorted_sortAsc l)

lemma sortAsc_of_sorted {l : List ℤ} (h : l.Sorted (· ≤ ·)) : sortAsc l = l :=
  List.Sorted.insertionSort_eq h

/-- Taking the `k` largest (via the descending sort) and re-sorting them
ascending yields the length-`k` suffix of the ascending sort. -/
lemma sortAsc_take_sortDesc (l : List ℤ) (k : ℕ) :
    sortAsc ((sortDesc l).take k) = (sortAsc l).drop ((sortAsc l).length - k) := by
  rw [sortDesc_eq_reverse_sortAsc, List.take_reverse]
  have hs : ((sortAsc l).drop ((sortAsc l).length - k)).Sorted (· ≤ ·) :=
    List.Pairwise.sublist (List.drop_sublist _ _) (sorted_sortAsc l)
  refine List.eq_of_perm_of_sorted ?_ (sorted_sortAsc _) hs
  exact (perm_sortAsc _).trans (List.reverse_perm _)

namespace CcdFilter

/-!
## `ccd_break_filter_to_raster.py`, `filter_pixel_group` (lines 50–89)

A pixel group is the list of parquet rows sharing `x_coord`/`y_coord`.
Only the `tBreak` column (milliseconds since epoch) and the row identity
matter to `filter_pixel_group`; a row is modelled as an original index
together with its `tBreak` value.  The date bounds reach the comparison
already converted to milliseconds (`int(pd.to_datetime(...).timestamp()*1000)`
is library code), so they are modelled as optional integers.
-/

/-- A row of a pixel group: original DataFrame index and `tBreak` value. -/
structure SRow where
  idx : ℕ
  tBreak : ℤ
deriving DecidableEq

/-- Descending `tBreak` order on rows (stable insertion sort below models
`Series.nlargest`, whose default `keep='first'` keeps earlier rows among
ties). -/
def tBreakDesc (a b : SRow) : Prop := b.tBreak ≤ a.tBreak

instance : DecidableRel tBreakDesc :=
  fun a b => inferInstanceAs (Decidable (b.tBreak ≤ a.tBreak))

instance : IsTotal SRow tBreakDesc := ⟨fun a b => le_total b.tBreak a.tBreak⟩

instance : IsTrans SRow tBreakDesc := ⟨fun _ _ _ h1 h2 => le_trans h2 h1⟩

/-- The selection applied to an (already date-filtered) group:
`group.iloc[0]` when the group has exactly one row, otherwise
`group.loc[group['tBreak'].nlargest(2).index[-1]]`, i.e. the last of the
first two rows of the stable descending ordering. -/
def pick_row (g : List SRow) : Option SRow :=
  if g.length = 1 then g.head?
  else ((List.insertionSort tBreakDesc g).take 2).getLast?

/-- Embedding of `filter_pixel_group(group, search_start, search_end)`.
When at least one bound is given the group is first restricted to rows
with `tBreak` inside the bounds, and `None` is returned when nothing
remains. -/
def filter_pixel_group (g : List SRow)
    (search_start search_end : Option ℤ) : Option SRow :=
  match search_start, search_end with
  | none, none => pick_row g
  | s, e =>
    let g1 := match s with
      | none => g
      | some a => g.filter (fun r => a ≤ r.tBreak)
    let g2 := match e with
      | none => g1
      | some b => g1.filter (fun r => r.tBreak ≤ b)
    if g2.isEmpty then none else pick_row g2

/-- A row's `tBreak` lies within the (optional) date bounds. -/
def withinBounds (s e : Option ℤ) (r : SRow) : Prop :=
  (∀ a, s = some a → a ≤ r.tBreak) ∧ (∀ b, e = some b → r.tBreak ≤ b)

lemma pick_row_mem {g : List SRow} {r : SRow} (h : pick_row g = some r) :
    r ∈ g := by
  unfold pick_row at h
  split at h
  · exact List.mem_of_mem_head? h
  · have hmem : r ∈ ((List.insertionSort tBreakDesc g).take 2).getLast? := h
    obtain ⟨hne, heq⟩ := List.mem_getLast?_eq_getLast hmem
    have hr : r ∈ (List.insertionSort tBreakDesc g).take 2 := by
      rw [heq]; exact List.getLast_mem hne
    have hr2 : r ∈ List.insertionSort tBreakDesc g :=
      List.mem_of_mem_take hr
    exact (List.perm_insertionSort tBreakDesc g).mem_iff.mp hr2

lemma pick_row_isSome {g : List SRow} (h : g ≠ []) :
    (pick_row g).isSome := by
  unfold pick_row
  split
  · cases g with
    | nil => exact absurd rfl h
    | cons a t => rfl
  · have hlen : (List.insertionSort tBreakDesc g).length = g.length :=
      (List.perm_insertionSort tBreakDesc g).length_eq
    cases hs : List.insertionSort tBreakDesc g with
    | nil =>
      exfalso
      apply h
      have h0 : g.length = 0 := by
        rw [← hlen, hs]
        rfl
      exact List.length_eq_zero.mp h0
    | cons a t =>
      cases t with
      | nil => rfl
      | cons b t2 => rfl

/-- The date filter actually applied by `filter_pixel_group` when at
least one bound is present. -/
def boundsFilter (g : List SRow) (s e : Option ℤ) : List SRow :=
  let g1 := match s with
    | none => g
    | some a => g.filter (fun r => a ≤ r.tBreak)
  match e with
  | none => g1
  | some b => g1.filter (fun r => r.tBreak ≤ b)

lemma filter_pixel_group_eq_of_bound (g : List SRow) (s e : Option ℤ)
    (h : s ≠ none ∨ e ≠ none) :
    filter_pixel_group g s e =
      if (boundsFilter g s e).isEmpty then none
      else pick_row (boundsFilter g s e) := by
  match s, e with
  | none, none => simp at h
  | some a, none => rfl
  | none, some b => rfl
  | some a, some b => rfl

lemma mem_boundsFilter {g : List SRow} {s e : Option ℤ} {r : SRow} :
    r ∈ boundsFilter g s e ↔ r ∈ g ∧ withinBounds s e r := by
  match s, e with
  | none, none =>
    simp [boundsFilter, withinBounds]
  | some a, none =>
    simp [boundsFilter, withinBounds, List.mem_filter]
  | none, some b =>
    simp [boundsFilter, withinBounds, List.mem_filter]
  | some a, some b =>
    simp only [boundsFilter, withinBounds, List.mem_filter, decide_eq_true_eq,
      Option.some.injEq, forall_eq']
    tauto

end CcdFilter

open CcdFilter in
/-- C1: `filter_pixel_group` with no date bounds returns a single-row
group's row unchanged; for a group of two or more rows it returns a row
of the group whose `tBreak` is the second element of the (stable)
descending ordering of the group's `tBreak` values.  The descending
value list has the group's length, so index `1` (read with `getD`) is
the second element. -/
theorem c1_break_selection_second_highest (g : List SRow) :
    (∀ r, g = [r] → filter_pixel_group g none none = some r) ∧
    (2 ≤ g.length →
      ∃ r, filter_pixel_group g none none = some r ∧ r ∈ g ∧
        r.tBreak = (sortDesc (g.map SRow.tBreak)).getD 1 0) := by
  constructor
  · rintro r rfl
    rfl
  · intro h2
    have hlen : (List.insertionSort tBreakDesc g).length = g.length :=
      (List.perm_insertionSort tBreakDesc g).length_eq
    match hL : List.insertionSort tBreakDesc g with
    | [] =>
      rw [hL] at hlen
      simp at hlen
      omega
    | [a] =>
      rw [hL] at hlen
      simp at hlen
      omega
    | a :: b :: t =>
      refine ⟨b, ?_, ?_, ?_⟩
      · show pick_row g = some b
        unfold pick_row
        rw [if_neg (by omega), hL]
        rfl
      · have : b ∈ List.insertionSort tBreakDesc g := by
          rw [hL]; exact List.mem_cons_of_mem _ (List.mem_cons_self _ _)
        exact (List.perm_insertionSort tBreakDesc g).mem_iff.mp this
      · have hsorted : List.Sorted zdesc
            ((List.insertionSort tBreakDesc g).map SRow.tBreak) := by
          refine List.Pairwise.map _ ?_ (List.sorted_insertionSort tBreakDesc g)
          intro x y hxy
          exact hxy
        have hperm : List.Perm ((List.insertionSort tBreakDesc g).map SRow.tBreak)
            (sortDesc (g.map SRow.tBreak)) := by
          refine ((List.perm_insertionSort tBreakDesc g).map _).trans ?_
          exact (List.perm_insertionSort zdesc (g.map SRow.tBreak)).symm
        have heq : (List.insertionSort tBreakDesc g).map SRow.tBreak =
            sortDesc (g.map SRow.tBreak) :=
          List.eq_of_perm_of_sorted hperm hsorted
            (List.sorted_insertionSort zdesc (g.map SRow.tBreak))
        rw [← heq, hL]
        rfl

/-- Witness for C1 on the concrete groups `[⟨0, 5⟩]` and
`[⟨0, 5⟩, ⟨1, 9⟩, ⟨2, 7⟩]`. -/
theorem c1_break_selection_second_highest_witness :
    (CcdFilter.filter_pixel_group [⟨0, 5⟩] none none = some ⟨0, 5⟩) ∧
    (∃ r, CcdFilter.filter_pixel_group [⟨0, 5⟩, ⟨1, 9⟩, ⟨2, 7⟩] none none
        = some r ∧ r ∈ [⟨0, 5⟩, ⟨1, 9⟩, ⟨2, 7⟩] ∧
      r.tBreak = (sortDesc (([⟨0, 5⟩, ⟨1, 9⟩, ⟨2, 7⟩] : List CcdFilter.SRow).map
        CcdFilter.SRow.tBreak)).getD 1 0) :=
  ⟨(c1_break_selection_second_highest [⟨0, 5⟩]).1 ⟨0, 5⟩ rfl,
   (c1_break_selection_second_highest [⟨0, 5⟩, ⟨1, 9⟩, ⟨2, 7⟩]).2 (by decide)⟩

open CcdFilter in
/-- C5: on a nonempty pixel group, `filter_pixel_group` returns `None`
exactly when at least one date bound is given and no row's `tBreak` lies
within the given bounds; and any returned row's `tBreak` lies within the
given bounds. -/
theorem c5_filter_pixel_group_bounds (g : List SRow) (s e : Option ℤ)
    (hg : g ≠ []) :
    (filter_pixel_group g s e = none ↔
      ((s ≠ none ∨ e ≠ none) ∧ ∀ r ∈ g, ¬ withinBounds s e r)) ∧
    (∀ r, filter_pixel_group g s e = some r → withinBounds s e r) := by
  by_cases hb : s = none ∧ e = none
  · obtain ⟨rfl, rfl⟩ := hb
    constructor
    · have hs : (pick_row g).isSome := pick_row_isSome hg
      constructor
      · intro hnone
        rw [show filter_pixel_group g none none = pick_row g from rfl] at hnone
        rw [hnone] at hs
        simp at hs
      · rintro ⟨h1, -⟩
        rcases h1 with h | h <;> exact absurd rfl h
    · intro r _
      exact ⟨fun a ha => by simp at ha, fun b hb2 => by simp at hb2⟩
  · have hne : s ≠ none ∨ e ≠ none := by
      rcases s with _ | a
      · rcases e with _ | b
        · exact absurd ⟨rfl, rfl⟩ hb
        · exact Or.inr (by simp)
      · exact Or.inl (by simp)
    rw [filter_pixel_group_eq_of_bound g s e hne]
    by_cases hemp : (boundsFilter g s e).isEmpty
    · rw [if_pos hemp]
      have hnil : boundsFilter g s e = [] := List.isEmpty_iff.mp hemp
      constructor
      · constructor
        · intro _
          refine ⟨hne, fun r hr hw => ?_⟩
          have : r ∈ boundsFilter g s e := mem_boundsFilter.mpr ⟨hr, hw⟩
          rw [hnil] at this
          simp at this
        · intro _
          rfl
      · intro r hr
        simp at hr
    · rw [if_neg hemp]
      have hnonnil : boundsFilter g s e ≠ [] := by
        intro h
        rw [h] at hemp
        simp at hemp
      constructor
      · have hs : (pick_row (boundsFilter g s e)).isSome :=
          pick_row_isSome hnonnil
        constructor
        · intro hnone
          rw [hnone] at hs
          simp at hs
        · rintro ⟨-, hall⟩
          obtain ⟨r, hr⟩ := List.exists_mem_of_ne_nil _ hnonnil
          obtain ⟨hrg, hrw⟩ := mem_boundsFilter.mp hr
          exact absurd hrw (hall r hrg)
      · intro r hsome
        exact (mem_boundsFilter.mp (pick_row_mem hsome)).2

/-- Witness for C5: the group `[⟨0, 5⟩, ⟨1, 9⟩]` with bounds
`[6, 10]`. -/
theorem c5_filter_pixel_group_bounds_witness :
    (CcdFilter.filter_pixel_group [⟨0, 5⟩, ⟨1, 9⟩] (some 6) (some 10) = none ↔
      (((some 6 : Option ℤ) ≠ none ∨ (some 10 : Option ℤ) ≠ none) ∧
        ∀ r ∈ ([⟨0, 5⟩, ⟨1, 9⟩] : List CcdFilter.SRow),
          ¬ CcdFilter.withinBounds (some 6) (some 10) r)) ∧
    (∀ r, CcdFilter.filter_pixel_group [⟨0, 5⟩, ⟨1, 9⟩] (some 6) (some 10)
        = some r → CcdFilter.withinBounds (some 6) (some 10) r) :=
  c5_filter_pixel_group_bounds [⟨0, 5⟩, ⟨1, 9⟩] (some 6) (some 10) (by decide)

namespace GeeDownload

/-!
## `gee_download_S2_tile_36_parts.py`, `combine_tiffs_to_mosaic` (lines 199–280)

The bespoke step after clipping the mosaic with the GeoPackage geometry:

```
mask_nodata = np.all(out_image == 0, axis=0)
out_image[:, mask_nodata] = NODATA
```

The clipped mosaic `out_image` is modelled as a list of bands, each a
list of `w` pixel values (the raster's pixel positions, flattened).
Merging, clipping and file I/O are library calls and are not modelled.
-/

/-- `NODATA = 65535`. -/
def NODATA : ℤ := 65535

/-- `np.all(out_image == 0, axis=0)`: at each of the `w` pixel
positions, whether every band holds `0`. -/
def mask_nodata (img : List (List ℤ)) (w : ℕ) : List Bool :=
  (List.range w).map (fun p => img.all (fun band => band.getD p 0 == 0))

/-- `out_image[:, mask_nodata] = NODATA`: each band, with the masked
positions overwritten by `NODATA`. -/
def set_nodata (img : List (List ℤ)) (w : ℕ) : List (List ℤ) :=
  img.map (fun band =>
    List.zipWith (fun m v => if m then NODATA else v) (mask_nodata img w) band)

lemma getD_zipWith (f : Bool → ℤ → ℤ) (m : List Bool) (v : List ℤ)
    (p : ℕ) (hp : p < m.length) (hp2 : p < v.length) :
    (List.zipWith f m v).getD p 0 = f (m.getD p false) (v.getD p 0) := by
  induction m generalizing v p with
  | nil => simp at hp
  | cons a m ih =>
    cases v with
    | nil => simp at hp2
    | cons b v =>
      cases p with
      | zero => rfl
      | succ q =>
        simp only [List.zipWith_cons_cons, List.getD_cons_succ]
        exact ih v q (by simpa using hp) (by simpa using hp2)

lemma mask_nodata_getD (img : List (List ℤ)) (w : ℕ) (p : ℕ) (hp : p < w) :
    (mask_nodata img w).getD p false =
      img.all (fun band => band.getD p 0 == 0) := by
  unfold mask_nodata
  rw [List.getD_eq_getElem?_getD, List.getElem?_map, List.getElem?_range hp]
  rfl

lemma mask_nodata_length (img : List (List ℤ)) (w : ℕ) :
    (mask_nodata img w).length = w := by
  simp [mask_nodata]

lemma getD_map_of_lt (F : List ℤ → List ℤ) (l : List (List ℤ)) (b : ℕ)
    (hb : b < l.length) : (l.map F).getD b [] = F (l.getD b []) := by
  rw [List.getD_eq_getElem?_getD, List.getElem?_map,
    List.getElem?_eq_getElem hb]
  rw [List.getD_eq_getElem?_getD, List.getElem?_eq_getElem hb]
  rfl

end GeeDownload

open GeeDownload in
/-- C2: in `combine_tiffs_to_mosaic`, after clipping, a pixel position at
which all bands hold `0` is set to `NODATA = 65535` in every band of the
written image, and a pixel position at which at least one band is
nonzero keeps its clipped value in every band. -/
theorem c2_mosaic_zero_to_nodata (img : List (List ℤ)) (w : ℕ)
    (hlen : ∀ band ∈ img, band.length = w)
    (b : ℕ) (hb : b < img.length) (p : ℕ) (hp : p < w) :
    ((∀ band ∈ img, band.getD p 0 = 0) →
      ((set_nodata img w).getD b []).getD p 0 = NODATA) ∧
    ((∃ band ∈ img, band.getD p 0 ≠ 0) →
      ((set_nodata img w).getD b []).getD p 0 = (img.getD b []).getD p 0) := by
  have hband : img.getD b [] ∈ img := by
    rw [List.getD_eq_getElem?_getD, List.getElem?_eq_getElem hb]
    exact List.getElem_mem hb
  have hbl : (img.getD b []).length = w := hlen _ hband
  have hget : ((set_nodata img w).getD b []).getD p 0 =
      (List.zipWith (fun m v => if m then NODATA else v)
        (mask_nodata img w) (img.getD b [])).getD p 0 := by
    unfold set_nodata
    rw [getD_map_of_lt _ _ _ hb]
  rw [hget, getD_zipWith _ _ _ p (by rw [mask_nodata_length]; exact hp)
    (by rw [hbl]; exact hp), mask_nodata_getD img w p hp]
  constructor
  · intro hall
    have : (img.all (fun band => band.getD p 0 == 0)) = true := by
      rw [List.all_eq_true]
      intro band hbandm
      exact beq_iff_eq.mpr (hall band hbandm)
    rw [this]
    rfl
  · rintro ⟨band, hbandm, hnz⟩
    have : (img.all (fun band => band.getD p 0 == 0)) = false := by
      rw [List.all_eq_false]
      exact ⟨band, hbandm, by simpa using hnz⟩
    rw [this]
    rfl

/-- Witness for C2 on the two-band image `[[0, 3], [0, 5]]` of width 2:
pixel 0 is zero in all bands and becomes 65535; pixel 1 is nonzero in a
band and keeps its value. -/
theorem c2_mosaic_zero_to_nodata_witness :
    (((GeeDownload.set_nodata [[0, 3], [0, 5]] 2).getD 0 []).getD 0 0
      = GeeDownload.NODATA) ∧
    (((GeeDownload.set_nodata [[0, 3], [0, 5]] 2).getD 1 []).getD 1 0
      = (([[0, 3], [0, 5]] : List (List ℤ)).getD 1 []).getD 1 0) :=
  ⟨(c2_mosaic_zero_to_nodata [[0, 3], [0, 5]] 2 (by decide) 0 (by decide)
      0 (by decide)).1 (by decide),
   (c2_mosaic_zero_to_nodata [[0, 3], [0, 5]] 2 (by decide) 1 (by decide)
      1 (by decide)).2 ⟨[0, 5], by decide, by decide⟩⟩

namespace GeeDownload

/-!
## `process_and_mosaic_images` / `process_images_in_parallel` (lines 282–316)

Concurrency model.  The main thread runs, in order: one
`executor.submit(exportImageForSingleImage, ...)` per image, one
`future.result()` per image (inside `process_images_in_parallel`), and
then, only after that call returns, one `combine_tiffs_to_mosaic` per
image.  A worker process may complete a submitted task at any time; the
only synchronisation is that `future.result()` returns only after the
task has completed.  An execution is a trace of events produced by the
small-step relation `PoolStep`; the main thread's remaining instruction
list and the sets of submitted and completed task indices form the
state.
-/

/-- Main-thread instructions of `process_and_mosaic_images`. -/
inductive MainInstr where
  | msubmit (i : ℕ)
  | mawait (i : ℕ)
  | mmosaic (i : ℕ)
deriving DecidableEq

/-- Observable events of an execution. -/
inductive Event where
  | esubmit (i : ℕ)
  | ecomplete (i : ℕ)
  | eawait (i : ℕ)
  | emosaic (i : ℕ)
deriving DecidableEq

/-- Execution state: pending main-thread program, submitted tasks,
completed tasks. -/
structure PoolState where
  prog : List MainInstr
  submitted : List ℕ
  completed : List ℕ
deriving DecidableEq

/-- The main-thread program for `n` images: all submits, then all
awaits (`future.result()` in submission order), then all mosaics. -/
def mainProg (n : ℕ) : List MainInstr :=
  (List.range n).map MainInstr.msubmit ++
    ((List.range n).map MainInstr.mawait ++ (List.range n).map MainInstr.mmosaic)

/-- Initial state of `process_and_mosaic_images(imageList, ...)`. -/
def initState (n : ℕ) : PoolState := ⟨mainProg n, [], []⟩

/-- One scheduler step: the main thread executes its next instruction
(an await only once the task is completed), or a worker completes a
submitted task. -/
inductive PoolStep : PoolState → Event → PoolState → Prop where
  | submit {i : ℕ} {rest : List MainInstr} {sub comp : List ℕ} :
      PoolStep ⟨MainInstr.msubmit i :: rest, sub, comp⟩ (Event.esubmit i)
        ⟨rest, i :: sub, comp⟩
  | completeTask {i : ℕ} {prog : List MainInstr} {sub comp : List ℕ}
      (h : i ∈ sub) :
      PoolStep ⟨prog, sub, comp⟩ (Event.ecomplete i) ⟨prog, sub, i :: comp⟩
  | awaitTask {i : ℕ} {rest : List MainInstr} {sub comp : List ℕ}
      (h : i ∈ comp) :
      PoolStep ⟨MainInstr.mawait i :: rest, sub, comp⟩ (Event.eawait i)
        ⟨rest, sub, comp⟩
  | mosaic {i : ℕ} {rest : List MainInstr} {sub comp : List ℕ} :
      PoolStep ⟨MainInstr.mmosaic i :: rest, sub, comp⟩ (Event.emosaic i)
        ⟨rest, sub, comp⟩

/-- A run: a sequence of steps producing a trace of events. -/
inductive PoolRun : PoolState → List Event → PoolState → Prop where
  | nil {s : PoolState} : PoolRun s [] s
  | cons {s s' s'' : PoolState} {e : Event} {tr : List Event} :
      PoolStep s e s' → PoolRun s' tr s'' → PoolRun s (e :: tr) s''

/-- Invariant: while a mosaic instruction is still pending, every task
index below `n` either still has its await pending or is completed. -/
def InvAwaits (n : ℕ) (s : PoolState) : Prop :=
  ∀ j, MainInstr.mmosaic j ∈ s.prog → ∀ i, i < n →
    MainInstr.mawait i ∈ s.prog ∨ i ∈ s.completed

/-- Invariant: in the pending program no await instruction follows a
mosaic instruction. -/
def InvOrder (s : PoolState) : Prop :=
  s.prog.Pairwise (fun a b => (∃ j, a = MainInstr.mmosaic j) →
    ∀ i, b ≠ MainInstr.mawait i)

lemma step_preserves {n : ℕ} {s s' : PoolState} {e : Event}
    (hstep : PoolStep s e s') (hA : InvAwaits n s) (hO : InvOrder s) :
    InvAwaits n s' ∧ InvOrder s' := by
  cases hstep with
  | @submit i rest sub comp =>
    refine ⟨?_, List.Pairwise.of_cons hO⟩
    intro j hj k hk
    rcases hA j (List.mem_cons_of_mem _ hj) k hk with h | h
    · rcases List.mem_cons.mp h with h1 | h1
      · exact absurd h1 (by simp)
      · exact Or.inl h1
    · exact Or.inr h
  | @completeTask i prog sub comp h =>
    refine ⟨?_, hO⟩
    intro j hj k hk
    rcases hA j hj k hk with h1 | h1
    · exact Or.inl h1
    · exact Or.inr (List.mem_cons_of_mem _ h1)
  | @awaitTask i rest sub comp h =>
    refine ⟨?_, List.Pairwise.of_cons hO⟩
    intro j hj k hk
    rcases hA j (List.mem_cons_of_mem _ hj) k hk with h1 | h1
    · rcases List.mem_cons.mp h1 with h2 | h2
      · have : k = i := by
          injection h2
        exact Or.inr (this ▸ h)
      · exact Or.inl h2
    · exact Or.inr h1
  | @mosaic i rest sub comp =>
    refine ⟨?_, List.Pairwise.of_cons hO⟩
    intro j hj k hk
    rcases hA j (List.mem_cons_of_mem _ hj) k hk with h1 | h1
    · rcases List.mem_cons.mp h1 with h2 | h2
      · exact absurd h2 (by simp)
      · exact Or.inl h2
    · exact Or.inr h1

lemma invAwaits_init (n : ℕ) : InvAwaits n (initState n) := by
  intro j _ i hi
  left
  show MainInstr.mawait i ∈ mainProg n
  unfold mainProg
  refine List.mem_append_right _ (List.mem_append_left _ ?_)
  exact List.mem_map.mpr ⟨i, List.mem_range.mpr hi, rfl⟩

lemma invOrder_init (n : ℕ) : InvOrder (initState n) := by
  show (mainProg n).Pairwise _
  unfold mainProg
  rw [List.pairwise_append]
  refine ⟨?_, ?_, ?_⟩
  · refine List.pairwise_of_forall_mem_list ?_
    intro a ha b _ hmos
    obtain ⟨j, rfl⟩ := hmos
    obtain ⟨x, _, hx⟩ := List.mem_map.mp ha
    exact absurd hx (by simp)
  · rw [List.pairwise_append]
    refine ⟨?_, ?_, ?_⟩
    · refine List.pairwise_of_forall_mem_list ?_
      intro a ha b _ hmos
      obtain ⟨j, rfl⟩ := hmos
      obtain ⟨x, _, hx⟩ := List.mem_map.mp ha
      exact absurd hx (by simp)
    · refine List.pairwise_of_forall_mem_list ?_
      intro a _ b hb _ i
      obtain ⟨x, _, hx⟩ := List.mem_map.mp hb
      rw [← hx]
      simp
    · intro a ha b _ hmos
      obtain ⟨j, rfl⟩ := hmos
      obtain ⟨x, _, hx⟩ := List.mem_map.mp ha
      exact absurd hx (by simp)
  · intro a ha b _ hmos
    obtain ⟨j, rfl⟩ := hmos
    obtain ⟨x, _, hx⟩ := List.mem_map.mp ha
    exact absurd hx (by simp)

lemma run_mosaic_complete {n : ℕ} {s tr s'} (hrun : PoolRun s tr s') :
    InvAwaits n s → InvOrder s →
    ∀ t1 j t2, tr = t1 ++ Event.emosaic j :: t2 → ∀ i, i < n →
      Event.ecomplete i ∈ t1 ∨ i ∈ s.completed := by
  induction hrun with
  | nil =>
    intro _ _ t1 j t2 heq
    exact absurd heq (by simp)
  | @cons s s2 s'' e tr' hstep hrun' ih =>
    intro hA hO t1 j t2 heq i hi
    obtain ⟨hA', hO'⟩ := step_preserves hstep hA hO
    cases t1 with
    | nil =>
      simp only [List.nil_append, List.cons.injEq] at heq
      obtain ⟨rfl, rfl⟩ := heq
      cases hstep with
      | @mosaic j rest sub comp =>
        rcases hA j (List.mem_cons_self _ _) i hi with h1 | h1
        · exfalso
          rcases List.mem_cons.mp h1 with h2 | h2
          · exact absurd h2 (by simp)
          · have := (List.pairwise_cons.mp hO).1 _ h2 ⟨j, rfl⟩ i
            exact this rfl
        · exact Or.inr h1
    | cons e0 t1' =>
      simp only [List.cons_append, List.cons.injEq] at heq
      obtain ⟨rfl, heq'⟩ := heq
      rcases ih hA' hO' t1' j t2 heq' i hi with h1 | h1
      · exact Or.inl (List.mem_cons_of_mem _ h1)
      · cases hstep with
        | @submit i0 rest sub comp => exact Or.inr h1
        | @completeTask i0 prog sub comp h =>
          rcases List.mem_cons.mp h1 with h2 | h2
          · exact Or.inl (h2 ▸ List.mem_cons_self _ _)
          · exact Or.inr h2
        | @awaitTask i0 rest sub comp h => exact Or.inr h1
        | @mosaic i0 rest sub comp => exact Or.inr h1

end GeeDownload

open GeeDownload in
/-- C8: in any execution of `process_and_mosaic_images` for `n` images,
every download task's completion event precedes every mosaic event in
the trace: whenever the trace decomposes as `t1 ++ emosaic j :: t2`,
the completion of each task `i < n` already lies in `t1`.  In
particular no `combine_tiffs_to_mosaic` call begins before every
submitted subtile download task has completed. -/
theorem c8_mosaic_after_downloads (n : ℕ) (tr : List Event) (s' : PoolState)
    (hrun : PoolRun (initState n) tr s') (t1 t2 : List Event) (j i : ℕ)
    (hdec : tr = t1 ++ Event.emosaic j :: t2) (hi : i < n) :
    Event.ecomplete i ∈ t1 := by
  rcases run_mosaic_complete hrun (invAwaits_init n) (invOrder_init n)
      t1 j t2 hdec i hi with h | h
  · exact h
  · exact absurd h (by simp [initState])

/-- Witness for C8: the canonical 1-image run
submit, complete, await, mosaic. -/
theorem c8_mosaic_after_downloads_witness :
    GeeDownload.Event.ecomplete 0 ∈
      [GeeDownload.Event.esubmit 0, GeeDownload.Event.ecomplete 0,
        GeeDownload.Event.eawait 0] :=
  c8_mosaic_after_downloads 1
    [GeeDownload.Event.esubmit 0, GeeDownload.Event.ecomplete 0,
      GeeDownload.Event.eawait 0, GeeDownload.Event.emosaic 0]
    ⟨[], [0], [0]⟩
    (GeeDownload.PoolRun.cons GeeDownload.PoolStep.submit
      (GeeDownload.PoolRun.cons (GeeDownload.PoolStep.completeTask (by simp))
        (GeeDownload.PoolRun.cons (GeeDownload.PoolStep.awaitTask (by simp))
          (GeeDownload.PoolRun.cons GeeDownload.PoolStep.mosaic
            GeeDownload.PoolRun.nil))))
    [GeeDownload.Event.esubmit 0, GeeDownload.Event.ecomplete 0,
      GeeDownload.Event.eawait 0] [] 0 0 rfl (by decide)

namespace DateConv

/-!
## Timestamp → calendar date conversion

`ccd_break_filter_to_raster.py` converts `tBreak` (milliseconds since
the Unix epoch, UTC) to dates via
`pd.to_datetime(x, unit='ms', utc=True)` and formats them as integer
`YYYYMMDD` (`int(date_obj.strftime('%Y%m%d'))`).  This library
conversion is embedded as exact integer arithmetic: the day number is
`t` floor-divided by the milliseconds per day, and the proleptic
Gregorian calendar walk from 1970-01-01 yields the year, month and day.
The year walk uses a fuel bound far beyond the pandas `Timestamp`
range. -/

/-- Milliseconds per day. -/
def msPerDay : ℤ := 86400000

/-- Gregorian leap-year rule. -/
def isLeap (y : ℤ) : Bool := (y % 4 == 0 && y % 100 != 0) || (y % 400 == 0)

/-- Days in calendar year `y`. -/
def daysInYear (y : ℤ) : ℤ := if isLeap y then 366 else 365

/-- Month lengths of a (non-)leap year. -/
def monthLens (leap : Bool) : List ℤ :=
  [31, if leap then 29 else 28, 31, 30, 31, 30, 31, 31, 30, 31, 30, 31]

/-- Walk forward one year at a time from year `y`; returns the year and
the remaining day-of-year (0-based). -/
def yearFromDays : ℕ → ℤ → ℤ → ℤ × ℤ
  | 0, d, y => (y, d)
  | fuel + 1, d, y =>
    if d < daysInYear y then (y, d)
    else yearFromDays fuel (d - daysInYear y) (y + 1)

/-- Walk the month-length table; returns the (1-based) month and day. -/
def monthFromDoy : List ℤ → ℤ → ℤ → ℤ × ℤ
  | [], m, d => (m, d + 1)
  | len :: rest, m, d =>
    if d < len then (m, d + 1) else monthFromDoy rest (m + 1) (d - len)

/-- Year-walk fuel: enough for any day number below `365 * 1000000`,
far beyond the pandas `Timestamp` range (year 2262). -/
def FUEL : ℕ := 1000000

/-- `(year, month, day)` of a day number counted from 1970-01-01. -/
def ymdOfDays (days : ℤ) : ℤ × ℤ × ℤ :=
  let yr := yearFromDays FUEL days 1970
  let md := monthFromDoy (monthLens (isLeap yr.1)) 1 yr.2
  (yr.1, md.1, md.2)

/-- `int(pd.to_datetime(t, unit='ms', utc=True).strftime('%Y%m%d'))`. -/
def msToYYYYMMDD (t : ℤ) : ℤ :=
  let ymd := ymdOfDays (t.fdiv msPerDay)
  ymd.1 * 10000 + ymd.2.1 * 100 + ymd.2.2

/-- The calendar year of a millisecond timestamp
(`pd.to_datetime(x, unit='ms', utc=True).year`). -/
def yearOfMs (t : ℤ) : ℤ := (ymdOfDays (t.fdiv msPerDay)).1

/-- The `100 * month + day` part of the converted date. -/
def mdOfMs (t : ℤ) : ℤ :=
  100 * (ymdOfDays (t.fdiv msPerDay)).2.1 + (ymdOfDays (t.fdiv msPerDay)).2.2

lemma daysInYear_bounds (y : ℤ) : 365 ≤ daysInYear y ∧ daysInYear y ≤ 366 := by
  unfold daysInYear
  split <;> norm_num

lemma yearFromDays_spec : ∀ (fuel : ℕ) (d y : ℤ), 0 ≤ d →
    d < 365 * (fuel : ℤ) →
    0 ≤ (yearFromDays fuel d y).2 ∧
    (yearFromDays fuel d y).2 < daysInYear (yearFromDays fuel d y).1 ∧
    y ≤ (yearFromDays fuel d y).1 := by
  intro fuel
  induction fuel with
  | zero =>
    intro d y h0 h1
    exfalso
    omega
  | succ n ih =>
    intro d y h0 h1
    have hdy := daysInYear_bounds y
    unfold yearFromDays
    by_cases hd : d < daysInYear y
    · rw [if_pos hd]
      exact ⟨h0, hd, le_refl y⟩
    · rw [if_neg hd]
      have hcast : ((n + 1 : ℕ) : ℤ) = (n : ℤ) + 1 := by push_cast; ring
      have h2 : 0 ≤ d - daysInYear y := by omega
      have h3 : d - daysInYear y < 365 * (n : ℤ) := by
        rw [hcast] at h1
        omega
      obtain ⟨a, b, c⟩ := ih (d - daysInYear y) (y + 1) h2 h3
      exact ⟨a, b, by omega⟩

lemma yearFromDays_mono : ∀ (fuel : ℕ) (d1 d2 y : ℤ), 0 ≤ d1 → d1 < d2 →
    d2 < 365 * (fuel : ℤ) →
    (yearFromDays fuel d1 y).1 < (yearFromDays fuel d2 y).1 ∨
    ((yearFromDays fuel d1 y).1 = (yearFromDays fuel d2 y).1 ∧
      (yearFromDays fuel d1 y).2 < (yearFromDays fuel d2 y).2) := by
  intro fuel
  induction fuel with
  | zero =>
    intro d1 d2 y h0 h12 h2
    exfalso
    omega
  | succ n ih =>
    intro d1 d2 y h0 h12 h2
    have hdy := daysInYear_bounds y
    have hcast : ((n + 1 : ℕ) : ℤ) = (n : ℤ) + 1 := by push_cast; ring
    unfold yearFromDays
    by_cases hd1 : d1 < daysInYear y
    · by_cases hd2 : d2 < daysInYear y
      · rw [if_pos hd1, if_pos hd2]
        exact Or.inr ⟨rfl, h12⟩
      · rw [if_pos hd1, if_neg hd2]
        left
        have := yearFromDays_spec n (d2 - daysInYear y) (y + 1)
          (by omega) (by rw [hcast] at h2; omega)
        omega
    · have hd2 : ¬ d2 < daysInYear y := by omega
      rw [if_neg hd1, if_neg hd2]
      exact ih (d1 - daysInYear y) (d2 - daysInYear y) (y + 1)
        (by omega) (by omega) (by rw [hcast] at h2; omega)

lemma monthFromDoy_bounds : ∀ (ls : List ℤ) (m0 d : ℤ),
    (∀ L ∈ ls, 1 ≤ L ∧ L ≤ 31) → 0 ≤ d → d < ls.sum →
    m0 ≤ (monthFromDoy ls m0 d).1 ∧
    (monthFromDoy ls m0 d).1 ≤ m0 + ls.length - 1 ∧
    1 ≤ (monthFromDoy ls m0 d).2 ∧ (monthFromDoy ls m0 d).2 ≤ 31 := by
  intro ls
  induction ls with
  | nil =>
    intro m0 d _ h0 h1
    exfalso
    simp at h1
    omega
  | cons L rest ih =>
    intro m0 d hall h0 h1
    have hL := hall L (List.mem_cons_self _ _)
    have hsum : (L :: rest).sum = L + rest.sum := by simp
    unfold monthFromDoy
    by_cases hd : d < L
    · rw [if_pos hd]
      refine ⟨le_refl _, ?_, by omega, by omega⟩
      have : (0 : ℤ) ≤ rest.length := by positivity
      simp only [List.length_cons]
      push_cast
      omega
    · rw [if_neg hd]
      have := ih (m0 + 1) (d - L)
        (fun M hM => hall M (List.mem_cons_of_mem _ hM))
        (by omega) (by omega)
      refine ⟨by omega, ?_, this.2.2.1, this.2.2.2⟩
      have h2 := this.2.1
      simp only [List.length_cons] at h2 ⊢
      push_cast at h2 ⊢
      omega

lemma monthFromDoy_mono : ∀ (ls : List ℤ) (m0 d1 d2 : ℤ),
    (∀ L ∈ ls, 1 ≤ L ∧ L ≤ 31) → 0 ≤ d1 → d1 < d2 → d2 < ls.sum →
    100 * (monthFromDoy ls m0 d1).1 + (monthFromDoy ls m0 d1).2 <
    100 * (monthFromDoy ls m0 d2).1 + (monthFromDoy ls m0 d2).2 := by
  intro ls
  induction ls with
  | nil =>
    intro m0 d1 d2 _ h0 h12 h2
    exfalso
    simp at h2
    omega
  | cons L rest ih =>
    intro m0 d1 d2 hall h0 h12 h2
    have hL := hall L (List.mem_cons_self _ _)
    have hsum : (L :: rest).sum = L + rest.sum := by simp
    unfold monthFromDoy
    by_cases hd1 : d1 < L
    · by_cases hd2 : d2 < L
      · rw [if_pos hd1, if_pos hd2]
        omega
      · rw [if_pos hd1, if_neg hd2]
        have := monthFromDoy_bounds rest (m0 + 1) (d2 - L)
          (fun M hM => hall M (List.mem_cons_of_mem _ hM))
          (by omega) (by omega)
        omega
    · have hd2 : ¬ d2 < L := by omega
      rw [if_neg hd1, if_neg hd2]
      exact ih (m0 + 1) (d1 - L) (d2 - L)
        (fun M hM => hall M (List.mem_cons_of_mem _ hM))
        (by omega) (by omega) (by omega)

lemma monthLens_all_bounds (b : Bool) : ∀ L ∈ monthLens b, 1 ≤ L ∧ L ≤ 31 := by
  cases b <;> decide

lemma monthLens_sum (y : ℤ) : (monthLens (isLeap y)).sum = daysInYear y := by
  unfold daysInYear
  cases h : isLeap y <;> simp [h] <;> decide

lemma monthLens_length (b : Bool) : (monthLens b).length = 12 := by
  cases b <;> rfl

/-- Bounds on the converted date's pieces: within the fuel range the
month–day part lies in `[101, 1231]` and the year is at least 1970. -/
lemma ymdOfDays_bounds {days : ℤ} (h0 : 0 ≤ days)
    (h1 : days < 365 * (FUEL : ℤ)) :
    101 ≤ 100 * (ymdOfDays days).2.1 + (ymdOfDays days).2.2 ∧
    100 * (ymdOfDays days).2.1 + (ymdOfDays days).2.2 ≤ 1231 ∧
    1970 ≤ (ymdOfDays days).1 := by
  obtain ⟨ha, hb, hc⟩ := yearFromDays_spec FUEL days 1970 h0 h1
  have hmd := monthFromDoy_bounds
    (monthLens (isLeap (yearFromDays FUEL days 1970).1)) 1
    (yearFromDays FUEL days 1970).2
    (monthLens_all_bounds _) ha (by rw [monthLens_sum]; exact hb)
  have hlen := monthLens_length (isLeap (yearFromDays FUEL days 1970).1)
  have e1 : (ymdOfDays days).1 = (yearFromDays FUEL days 1970).1 := rfl
  have e2 : (ymdOfDays days).2.1 =
      (monthFromDoy (monthLens (isLeap (yearFromDays FUEL days 1970).1)) 1
        (yearFromDays FUEL days 1970).2).1 := rfl
  have e3 : (ymdOfDays days).2.2 =
      (monthFromDoy (monthLens (isLeap (yearFromDays FUEL days 1970).1)) 1
        (yearFromDays FUEL days 1970).2).2 := rfl
  rw [e1, e2, e3]
  have h2 := hmd.2.1
  rw [hlen] at h2
  exact ⟨by omega, by omega, hc⟩

/-- Strict monotonicity of the converted date under the day number:
a later day yields a later year or a later month–day in the same
year. -/
lemma ymdOfDays_mono {days1 days2 : ℤ} (h0 : 0 ≤ days1) (h12 : days1 < days2)
    (h2 : days2 < 365 * (FUEL : ℤ)) :
    (ymdOfDays days1).1 < (ymdOfDays days2).1 ∨
    ((ymdOfDays days1).1 = (ymdOfDays days2).1 ∧
      100 * (ymdOfDays days1).2.1 + (ymdOfDays days1).2.2 <
      100 * (ymdOfDays days2).2.1 + (ymdOfDays days2).2.2) := by
  rcases yearFromDays_mono FUEL days1 days2 1970 h0 h12 h2 with h | ⟨hy, hd⟩
  · left
    exact h
  · right
    refine ⟨hy, ?_⟩
    have e2a : (ymdOfDays days1).2.1 =
        (monthFromDoy (monthLens (isLeap (yearFromDays FUEL days1 1970).1)) 1
          (yearFromDays FUEL days1 1970).2).1 := rfl
    have e3a : (ymdOfDays days1).2.2 =
        (monthFromDoy (monthLens (isLeap (yearFromDays FUEL days1 1970).1)) 1
          (yearFromDays FUEL days1 1970).2).2 := rfl
    have e2b : (ymdOfDays days2).2.1 =
        (monthFromDoy (monthLens (isLeap (yearFromDays FUEL days2 1970).1)) 1
          (yearFromDays FUEL days2 1970).2).1 := rfl
    have e3b : (ymdOfDays days2).2.2 =
        (monthFromDoy (monthLens (isLeap (yearFromDays FUEL days2 1970).1)) 1
          (yearFromDays FUEL days2 1970).2).2 := rfl
    rw [e2a, e3a, e2b, e3b, hy]
    have hs2 := yearFromDays_spec FUEL days2 1970 (by omega) h2
    refine monthFromDoy_mono _ 1 _ _ (monthLens_all_bounds _) ?_ hd ?_
    · exact (yearFromDays_spec FUEL days1 1970 h0 (by omega)).1
    · rw [monthLens_sum]
      exact hs2.2.1

lemma msToYYYYMMDD_decomp (t : ℤ) :
    msToYYYYMMDD t = 10000 * yearOfMs t + mdOfMs t := by
  unfold msToYYYYMMDD yearOfMs mdOfMs
  ring

end DateConv

example : DateConv.msToYYYYMMDD 0 = 19700101 := by decide
example : DateConv.msToYYYYMMDD 86400000 = 19700102 := by decide
example : DateConv.msToYYYYMMDD 1577836800000 = 20200101 := by decide
example : DateConv.msToYYYYMMDD 1583020799999 = 20200229 := by decide
example : DateConv.msToYYYYMMDD 951868800000 = 20000301 := by decide

namespace CcdRaster

/-!
## `calculate_raster_parameters_utm` (lines 251–283) and
## `create_raster_array_utm` (lines 285–309)

Points carry UTM coordinates (floats in the source, exact rationals
here) and an optional `tBreak` (`NaN` modelled as `none`).  The raster
is modelled as a total function from `(row, column)` to `ℤ`, initially
`-9999` everywhere; `np.round` is round-half-to-even on exact
rationals. -/

/-- A filtered break point: UTM coordinates and optional break
timestamp (ms). -/
structure Point where
  x : ℚ
  y : ℚ
  tBreak : Option ℤ
deriving DecidableEq

/-- Raster parameters: dimensions and pixel-corner bounds. -/
structure RasterParams where
  width : ℤ
  height : ℤ
  minXc : ℚ
  minYc : ℚ
  maxXc : ℚ
  maxYc : ℚ
deriving DecidableEq

/-- `pandas.Series.min` over a nonempty column. -/
def listMin : List ℚ → ℚ
  | [] => 0
  | a :: t => t.foldl min a

/-- `pandas.Series.max` over a nonempty column. -/
def listMax : List ℚ → ℚ
  | [] => 0
  | a :: t => t.foldl max a

lemma foldl_min_le_init : ∀ (t : List ℚ) (a : ℚ), t.foldl min a ≤ a := by
  intro t
  induction t with
  | nil => intro a; simp
  | cons b t ih =>
    intro a
    exact le_trans (ih (min a b)) (min_le_left a b)

lemma foldl_min_le_mem : ∀ (t : List ℚ) (a x : ℚ), x ∈ t → t.foldl min a ≤ x := by
  intro t
  induction t with
  | nil => intro a x hx; simp at hx
  | cons b t ih =>
    intro a x hx
    rcases List.mem_cons.mp hx with rfl | hx
    · exact le_trans (foldl_min_le_init t (min a x)) (min_le_right a x)
    · exact ih (min a b) x hx

lemma init_le_foldl_max : ∀ (t : List ℚ) (a : ℚ), a ≤ t.foldl max a := by
  intro t
  induction t with
  | nil => intro a; simp
  | cons b t ih =>
    intro a
    exact le_trans (le_max_left a b) (ih (max a b))

lemma mem_le_foldl_max : ∀ (t : List ℚ) (a x : ℚ), x ∈ t → x ≤ t.foldl max a := by
  intro t
  induction t with
  | nil => intro a x hx; simp at hx
  | cons b t ih =>
    intro a x hx
    rcases List.mem_cons.mp hx with rfl | hx
    · exact le_trans (le_max_right a x) (init_le_foldl_max t (max a x))
    · exact ih (max a b) x hx

lemma listMin_le {l : List ℚ} {x : ℚ} (h : x ∈ l) : listMin l ≤ x := by
  cases l with
  | nil => simp at h
  | cons a t =>
    rcases List.mem_cons.mp h with rfl | hx
    · exact foldl_min_le_init t x
    · exact foldl_min_le_mem t a x hx

lemma le_listMax {l : List ℚ} {x : ℚ} (h : x ∈ l) : x ≤ listMax l := by
  cases l with
  | nil => simp at h
  | cons a t =>
    rcases List.mem_cons.mp h with rfl | hx
    · exact init_le_foldl_max t x
    · exact mem_le_foldl_max t a x hx

/-- `np.round`: round half to even, on exact rationals. -/
def nround (q : ℚ) : ℤ :=
  if q - (⌊q⌋ : ℚ) < 1/2 then ⌊q⌋
  else if (1 : ℚ)/2 < q - (⌊q⌋ : ℚ) then ⌊q⌋ + 1
  else if 2 ∣ ⌊q⌋ then ⌊q⌋ else ⌊q⌋ + 1

/-- Embedding of `calculate_raster_parameters_utm(gdf)`: fixed 10 m
resolution, bounds extended by half a pixel around the coordinate
extremes, `ceil` for the dimensions. -/
def calculate_raster_parameters_utm (gdf : List Point) : RasterParams :=
  let min_x := listMin (gdf.map Point.x)
  let min_y := listMin (gdf.map Point.y)
  let max_x := listMax (gdf.map Point.x)
  let max_y := listMax (gdf.map Point.y)
  let min_x_corner := min_x - 10 / 2
  let min_y_corner := min_y - 10 / 2
  let max_x_corner := max_x + 10 / 2
  let max_y_corner := max_y + 10 / 2
  { width := ⌈(max_x_corner - min_x_corner) / 10⌉
    height := ⌈(max_y_corner - min_y_corner) / 10⌉
    minXc := min_x_corner
    minYc := min_y_corner
    maxXc := max_x_corner
    maxYc := max_y_corner }

/-- `x_idx = int(np.round((x - min_x) / res_x - 0.5))` (with `min_x`
the corner bound). -/
def xIdx (p : RasterParams) (px : ℚ) : ℤ := nround ((px - p.minXc) / 10 - 1/2)

/-- `y_idx = int(np.round((max_y - y) / res_y - 0.5))` (with `max_y`
the corner bound). -/
def yIdx (p : RasterParams) (py : ℚ) : ℤ := nround ((p.maxYc - py) / 10 - 1/2)

/-- One iteration of the write loop of `create_raster_array_utm`: the
in-bounds guard, the `pd.isna` guard, then the dated write. -/
def writePoint (p : RasterParams) (arr : ℤ → ℤ → ℤ) (r : Point) : ℤ → ℤ → ℤ :=
  let xi := xIdx p r.x
  let yi := yIdx p r.y
  if 0 ≤ xi ∧ xi < p.width ∧ 0 ≤ yi ∧ yi < p.height then
    match r.tBreak with
    | some t => fun a b =>
        if a = yi ∧ b = xi then DateConv.msToYYYYMMDD t else arr a b
    | none => arr
  else arr

/-- Embedding of `create_raster_array_utm(gdf, raster_params)`. -/
def create_raster_array_utm (gdf : List Point) (p : RasterParams) :
    ℤ → ℤ → ℤ :=
  gdf.foldl (writePoint p) (fun _ _ => (-9999 : ℤ))

/-- Two points fall in different raster cells. -/
def cellNe (p : RasterParams) (r r' : Point) : Prop :=
  yIdx p r.y ≠ yIdx p r'.y ∨ xIdx p r.x ≠ xIdx p r'.x

instance (p : RasterParams) : DecidableRel (cellNe p) := fun _ _ =>
  inferInstanceAs (Decidable (_ ∨ _))

lemma nround_nonneg {q : ℚ} (h : 0 ≤ q) : 0 ≤ nround q := by
  unfold nround
  have hf : (0 : ℤ) ≤ ⌊q⌋ := Int.floor_nonneg.mpr h
  split
  · exact hf
  · split
    · omega
    · split <;> omega

lemma nround_le_ceil (q : ℚ) : nround q ≤ ⌈q⌉ := by
  unfold nround
  have h1 : ⌊q⌋ ≤ ⌈q⌉ := Int.floor_le_ceil q
  have hup : ¬(q - (⌊q⌋ : ℚ) < 1/2) → ⌊q⌋ + 1 ≤ ⌈q⌉ := by
    intro hr
    have hpos : (⌊q⌋ : ℚ) < q := by
      push_neg at hr
      nlinarith [Int.floor_le q]
    exact Int.lt_ceil.mpr hpos
  split
  · exact h1
  · rename_i hr
    split
    · exact hup hr
    · split
      · exact h1
      · exact hup hr

lemma nround_intCast (n : ℤ) : nround ((n : ℤ) : ℚ) = n := by
  unfold nround
  rw [Int.floor_intCast]
  norm_num

/-- The index computation stays inside `[0, ⌈(hi - lo)/10⌉ + 1)` for any
value between `lo` and `hi`. -/
lemma idx_bounds_core {lo hi v : ℚ} (h1 : lo ≤ v) (h2 : v ≤ hi) :
    0 ≤ nround ((v - (lo - 10 / 2)) / 10 - 1/2) ∧
    nround ((v - (lo - 10 / 2)) / 10 - 1/2) < ⌈(hi + 10 / 2 - (lo - 10 / 2)) / 10⌉ := by
  have harg : (v - (lo - 10 / 2)) / 10 - 1/2 = (v - lo) / 10 := by ring
  have hceil : (hi + 10 / 2 - (lo - 10 / 2)) / 10 = (hi - lo) / 10 + 1 := by ring
  rw [harg, hceil, Int.ceil_add_one]
  constructor
  · exact nround_nonneg (div_nonneg (by linarith) (by norm_num))
  · have hle : (v - lo) / 10 ≤ (hi - lo) / 10 := by
      apply div_le_div_of_nonneg_right ?_ (by norm_num)
      · linarith
    calc nround ((v - lo) / 10) ≤ ⌈(v - lo) / 10⌉ := nround_le_ceil _
      _ ≤ ⌈(hi - lo) / 10⌉ := Int.ceil_le_ceil hle
      _ < ⌈(hi - lo) / 10⌉ + 1 := by omega

/-- In-bounds for the `x` index. -/
lemma xIdx_bounds (gdf : List Point) {vx : ℚ}
    (h1 : listMin (gdf.map Point.x) ≤ vx)
    (h2 : vx ≤ listMax (gdf.map Point.x)) :
    0 ≤ xIdx (calculate_raster_parameters_utm gdf) vx ∧
    xIdx (calculate_raster_parameters_utm gdf) vx <
      (calculate_raster_parameters_utm gdf).width :=
  idx_bounds_core h1 h2

/-- In-bounds for the `y` index. -/
lemma yIdx_bounds (gdf : List Point) {vy : ℚ}
    (h1 : listMin (gdf.map Point.y) ≤ vy)
    (h2 : vy ≤ listMax (gdf.map Point.y)) :
    0 ≤ yIdx (calculate_raster_parameters_utm gdf) vy ∧
    yIdx (calculate_raster_parameters_utm gdf) vy <
      (calculate_raster_parameters_utm gdf).height := by
  have harg : ((calculate_raster_parameters_utm gdf).maxYc - vy) / 10 - 1/2 =
      ((listMax (gdf.map Point.y) + listMin (gdf.map Point.y) - vy) -
        (listMin (gdf.map Point.y) - 10 / 2)) / 10 - 1/2 := by
    show (listMax (gdf.map Point.y) + 10 / 2 - vy) / 10 - 1/2 = _
    ring
  have hh : (calculate_raster_parameters_utm gdf).height =
      ⌈(listMax (gdf.map Point.y) + 10 / 2 -
        (listMin (gdf.map Point.y) - 10 / 2)) / 10⌉ := rfl
  have := @idx_bounds_core (listMin (gdf.map Point.y))
    (listMax (gdf.map Point.y))
    (listMax (gdf.map Point.y) + listMin (gdf.map Point.y) - vy)
    (by linarith) (by linarith)
  unfold yIdx
  rw [harg, hh]
  exact this

lemma foldl_write_preserve (p : RasterParams) (L : List Point)
    (arr : ℤ → ℤ → ℤ) (yi xi : ℤ)
    (h : ∀ r ∈ L, ¬(yIdx p r.y = yi ∧ xIdx p r.x = xi)) :
    (L.foldl (writePoint p) arr) yi xi = arr yi xi := by
  induction L generalizing arr with
  | nil => rfl
  | cons r0 L ih =>
    rw [List.foldl_cons, ih _ (fun r hr => h r (List.mem_cons_of_mem _ hr))]
    have hr0 := h r0 (List.mem_cons_self _ _)
    unfold writePoint
    split
    · cases htb : r0.tBreak with
      | none => rfl
      | some t =>
        show (if yi = yIdx p r0.y ∧ xi = xIdx p r0.x
            then DateConv.msToYYYYMMDD t else arr yi xi) = arr yi xi
        rw [if_neg]
        rintro ⟨h1, h2⟩
        exact hr0 ⟨h1.symm, h2.symm⟩
    · rfl

lemma writePoint_self (p : RasterParams) (arr : ℤ → ℤ → ℤ) (r : Point)
    (t : ℤ) (ht : r.tBreak = some t)
    (hin : 0 ≤ xIdx p r.x ∧ xIdx p r.x < p.width ∧
      0 ≤ yIdx p r.y ∧ yIdx p r.y < p.height) :
    writePoint p arr r (yIdx p r.y) (xIdx p r.x) =
      DateConv.msToYYYYMMDD t := by
  unfold writePoint
  rw [if_pos hin, ht]
  show (if yIdx p r.y = yIdx p r.y ∧ xIdx p r.x = xIdx p r.x
      then DateConv.msToYYYYMMDD t else arr _ _) = _
  rw [if_pos ⟨rfl, rfl⟩]

lemma foldl_write_mem (p : RasterParams) (L : List Point)
    (arr : ℤ → ℤ → ℤ) (r : Point) (t : ℤ)
    (hmem : r ∈ L) (ht : r.tBreak = some t)
    (hin : 0 ≤ xIdx p r.x ∧ xIdx p r.x < p.width ∧
      0 ≤ yIdx p r.y ∧ yIdx p r.y < p.height)
    (hinj : L.Pairwise (cellNe p)) :
    (L.foldl (writePoint p) arr) (yIdx p r.y) (xIdx p r.x) =
      DateConv.msToYYYYMMDD t := by
  induction L generalizing arr with
  | nil => simp at hmem
  | cons r0 L ih =>
    rw [List.foldl_cons]
    rcases List.mem_cons.mp hmem with rfl | hmem'
    · have hrest : ∀ q ∈ L,
          ¬(yIdx p q.y = yIdx p r.y ∧ xIdx p q.x = xIdx p r.x) := by
        intro q hq hc
        rcases (List.pairwise_cons.mp hinj).1 q hq with hne | hne
        · exact hne hc.1.symm
        · exact hne hc.2.symm
      rw [foldl_write_preserve p L _ _ _ hrest]
      exact writePoint_self p arr r t ht hin
    · exact ih _ hmem' (List.Pairwise.of_cons hinj)

end CcdRaster

open CcdRaster in
/-- C6: for any point whose coordinates lie between the dataset's
coordinate minima and maxima, the cell indices computed by
`create_raster_array_utm` from the parameters of
`calculate_raster_parameters_utm` satisfy `0 ≤ x_idx < width` and
`0 ≤ y_idx < height`, so the in-bounds guard never discards such a
point and every array write is inside the allocated raster. -/
theorem c6_raster_indices_in_bounds (gdf : List Point) (r : Point)
    (hx1 : listMin (gdf.map Point.x) ≤ r.x)
    (hx2 : r.x ≤ listMax (gdf.map Point.x))
    (hy1 : listMin (gdf.map Point.y) ≤ r.y)
    (hy2 : r.y ≤ listMax (gdf.map Point.y)) :
    0 ≤ xIdx (calculate_raster_parameters_utm gdf) r.x ∧
    xIdx (calculate_raster_parameters_utm gdf) r.x <
      (calculate_raster_parameters_utm gdf).width ∧
    0 ≤ yIdx (calculate_raster_parameters_utm gdf) r.y ∧
    yIdx (calculate_raster_parameters_utm gdf) r.y <
      (calculate_raster_parameters_utm gdf).height :=
  ⟨(xIdx_bounds gdf hx1 hx2).1, (xIdx_bounds gdf hx1 hx2).2,
   (yIdx_bounds gdf hy1 hy2).1, (yIdx_bounds gdf hy1 hy2).2⟩

open CcdRaster in
/-- Witness for C6 at the dataset `[(0,0), (10, 20)]` and its second
point. -/
theorem c6_raster_indices_in_bounds_witness :
    0 ≤ xIdx (calculate_raster_parameters_utm
        [⟨0, 0, some 0⟩, ⟨10, 20, none⟩]) (10 : ℚ) ∧
    xIdx (calculate_raster_parameters_utm
        [⟨0, 0, some 0⟩, ⟨10, 20, none⟩]) (10 : ℚ) <
      (calculate_raster_parameters_utm [⟨0, 0, some 0⟩, ⟨10, 20, none⟩]).width ∧
    0 ≤ yIdx (calculate_raster_parameters_utm
        [⟨0, 0, some 0⟩, ⟨10, 20, none⟩]) (20 : ℚ) ∧
    yIdx (calculate_raster_parameters_utm
        [⟨0, 0, some 0⟩, ⟨10, 20, none⟩]) (20 : ℚ) <
      (calculate_raster_parameters_utm [⟨0, 0, some 0⟩, ⟨10, 20, none⟩]).height := by
  have hmx : ((10 : ℚ)) ∈
      List.map Point.x [(⟨0, 0, some 0⟩ : Point), ⟨10, 20, none⟩] :=
    List.mem_map_of_mem Point.x
      (List.mem_cons_of_mem _ (List.mem_cons_self _ _))
  have hmy : ((20 : ℚ)) ∈
      List.map Point.y [(⟨0, 0, some 0⟩ : Point), ⟨10, 20, none⟩] :=
    List.mem_map_of_mem Point.y
      (List.mem_cons_of_mem _ (List.mem_cons_self _ _))
  exact c6_raster_indices_in_bounds [⟨0, 0, some 0⟩, ⟨10, 20, none⟩]
    ⟨10, 20, none⟩ (listMin_le hmx) (le_listMax hmx)
    (listMin_le hmy) (le_listMax hmy)

open CcdRaster in
/-- C3 as stated is false: when two selected points fall in the same
raster cell the later write overwrites the earlier one.  Concretely,
with the two points `(0,0)` carrying `tBreak = 0` (1970-01-01) and
`tBreak = 86400000` (1970-01-02), both land in cell `(0,0)` and the
raster holds `19700102` there, not the first point's `19700101 =
msToYYYYMMDD 0`. -/
theorem c3_counterexample_shared_cell :
    ¬ (create_raster_array_utm
        [⟨0, 0, some 0⟩, ⟨0, 0, some 86400000⟩]
        (calculate_raster_parameters_utm
          [⟨0, 0, some 0⟩, ⟨0, 0, some 86400000⟩])
        (yIdx (calculate_raster_parameters_utm
          [⟨0, 0, some 0⟩, ⟨0, 0, some 86400000⟩]) (0 : ℚ))
        (xIdx (calculate_raster_parameters_utm
          [⟨0, 0, some 0⟩, ⟨0, 0, some 86400000⟩]) (0 : ℚ))
      = DateConv.msToYYYYMMDD 0) := by
  intro h
  have hmx : ((0 : ℚ)) ∈ List.map Point.x
      [(⟨0, 0, some 0⟩ : Point), ⟨0, 0, some 86400000⟩] :=
    List.mem_map_of_mem Point.x (List.mem_cons_self _ _)
  have hmy : ((0 : ℚ)) ∈ List.map Point.y
      [(⟨0, 0, some 0⟩ : Point), ⟨0, 0, some 86400000⟩] :=
    List.mem_map_of_mem Point.y (List.mem_cons_self _ _)
  have heval : create_raster_array_utm
      [⟨0, 0, some 0⟩, ⟨0, 0, some 86400000⟩]
      (calculate_raster_parameters_utm
        [⟨0, 0, some 0⟩, ⟨0, 0, some 86400000⟩])
      (yIdx (calculate_raster_parameters_utm
        [⟨0, 0, some 0⟩, ⟨0, 0, some 86400000⟩]) (0 : ℚ))
      (xIdx (calculate_raster_parameters_utm
        [⟨0, 0, some 0⟩, ⟨0, 0, some 86400000⟩]) (0 : ℚ))
      = DateConv.msToYYYYMMDD 86400000 :=
    writePoint_self
      (calculate_raster_parameters_utm
        [⟨0, 0, some 0⟩, ⟨0, 0, some 86400000⟩]) _
      ⟨0, 0, some 86400000⟩ 86400000 rfl
      ⟨(xIdx_bounds _ (listMin_le hmx) (le_listMax hmx)).1,
       (xIdx_bounds _ (listMin_le hmx) (le_listMax hmx)).2,
       (yIdx_bounds _ (listMin_le hmy) (le_listMax hmy)).1,
       (yIdx_bounds _ (listMin_le hmy) (le_listMax hmy)).2⟩
  rw [heval] at h
  exact absurd h (by decide)

open CcdRaster in
/-- C3 (amended): provided distinct points of the input occupy distinct
raster cells, the raster built by `create_raster_array_utm` with the
parameters of `calculate_raster_parameters_utm` holds, at the cell of
each point with non-null `tBreak`, the break date converted from
milliseconds since epoch (UTC) to integer `YYYYMMDD`; and every cell in
which no point falls holds the nodata value `-9999`. -/
theorem c3_raster_break_dates (gdf : List Point)
    (hinj : gdf.Pairwise (cellNe (calculate_raster_parameters_utm gdf))) :
    (∀ r ∈ gdf, ∀ t, r.tBreak = some t →
      create_raster_array_utm gdf (calculate_raster_parameters_utm gdf)
        (yIdx (calculate_raster_parameters_utm gdf) r.y)
        (xIdx (calculate_raster_parameters_utm gdf) r.x)
      = DateConv.msToYYYYMMDD t) ∧
    (∀ yi xi : ℤ,
      (∀ r ∈ gdf, ¬(yIdx (calculate_raster_parameters_utm gdf) r.y = yi ∧
        xIdx (calculate_raster_parameters_utm gdf) r.x = xi)) →
      create_raster_array_utm gdf (calculate_raster_parameters_utm gdf) yi xi
        = -9999) := by
  constructor
  · intro r hr t ht
    have hx1 : listMin (gdf.map Point.x) ≤ r.x :=
      listMin_le (List.mem_map_of_mem _ hr)
    have hx2 : r.x ≤ listMax (gdf.map Point.x) :=
      le_listMax (List.mem_map_of_mem _ hr)
    have hy1 : listMin (gdf.map Point.y) ≤ r.y :=
      listMin_le (List.mem_map_of_mem _ hr)
    have hy2 : r.y ≤ listMax (gdf.map Point.y) :=
      le_listMax (List.mem_map_of_mem _ hr)
    exact foldl_write_mem _ _ _ r t hr ht
      ⟨(xIdx_bounds gdf hx1 hx2).1, (xIdx_bounds gdf hx1 hx2).2,
       (yIdx_bounds gdf hy1 hy2).1, (yIdx_bounds gdf hy1 hy2).2⟩ hinj
  · intro yi xi hno
    exact foldl_write_preserve _ _ _ _ _ hno

open CcdRaster in
/-- Witness for C3 (amended): two points in distinct cells; a dated
cell and an empty cell. -/
theorem c3_raster_break_dates_witness :
    (create_raster_array_utm [⟨0, 0, some 0⟩, ⟨10, 0, some 86400000⟩]
      (calculate_raster_parameters_utm
        [⟨0, 0, some 0⟩, ⟨10, 0, some 86400000⟩])
      (yIdx (calculate_raster_parameters_utm
        [⟨0, 0, some 0⟩, ⟨10, 0, some 86400000⟩]) (0 : ℚ))
      (xIdx (calculate_raster_parameters_utm
        [⟨0, 0, some 0⟩, ⟨10, 0, some 86400000⟩]) (0 : ℚ))
      = DateConv.msToYYYYMMDD 0) ∧
    (create_raster_array_utm [⟨0, 0, some 0⟩, ⟨10, 0, some 86400000⟩]
      (calculate_raster_parameters_utm
        [⟨0, 0, some 0⟩, ⟨10, 0, some 86400000⟩]) 7 9 = -9999) := by
  have hminx : listMin (List.map Point.x
      [(⟨0, 0, some 0⟩ : Point), ⟨10, 0, some 86400000⟩]) = 0 := by
    show listMin [(0 : ℚ), 10] = 0
    show min 0 (10 : ℚ) = 0
    norm_num
  have hx0 : xIdx (calculate_raster_parameters_utm
      [⟨0, 0, some 0⟩, ⟨10, 0, some 86400000⟩]) (0 : ℚ) = 0 := by
    show nround (((0 : ℚ) - (listMin (List.map Point.x
      [(⟨0, 0, some 0⟩ : Point), ⟨10, 0, some 86400000⟩]) - 10 / 2)) / 10
        - 1/2) = 0
    rw [hminx]
    have harg : ((0 : ℚ) - ((0 : ℚ) - 10 / 2)) / 10 - 1/2 = ((0 : ℤ) : ℚ) := by
      norm_num
    rw [harg, nround_intCast]
  have hx10 : xIdx (calculate_raster_parameters_utm
      [⟨0, 0, some 0⟩, ⟨10, 0, some 86400000⟩]) (10 : ℚ) = 1 := by
    show nround (((10 : ℚ) - (listMin (List.map Point.x
      [(⟨0, 0, some 0⟩ : Point), ⟨10, 0, some 86400000⟩]) - 10 / 2)) / 10
        - 1/2) = 1
    rw [hminx]
    have harg : ((10 : ℚ) - ((0 : ℚ) - 10 / 2)) / 10 - 1/2 = ((1 : ℤ) : ℚ) := by
      norm_num
    rw [harg, nround_intCast]
  have hinj : List.Pairwise (cellNe (calculate_raster_parameters_utm
      [⟨0, 0, some 0⟩, ⟨10, 0, some 86400000⟩]))
      [⟨0, 0, some 0⟩, ⟨10, 0, some 86400000⟩] := by
    refine List.pairwise_cons.mpr ⟨?_, List.pairwise_singleton _ _⟩
    intro q hq
    rcases List.mem_singleton.mp hq with rfl
    refine Or.inr ?_
    show xIdx _ (0 : ℚ) ≠ xIdx _ (10 : ℚ)
    rw [hx0, hx10]
    decide
  refine ⟨(c3_raster_break_dates _ hinj).1 ⟨0, 0, some 0⟩
      (List.mem_cons_self _ _) 0 rfl,
    (c3_raster_break_dates _ hinj).2 7 9 ?_⟩
  intro r hr
  rcases List.mem_cons.mp hr with rfl | hr2
  · rintro ⟨-, h2⟩
    have h2' : xIdx (calculate_raster_parameters_utm
        [⟨0, 0, some 0⟩, ⟨10, 0, some 86400000⟩]) (0 : ℚ) = 9 := h2
    rw [hx0] at h2'
    exact absurd h2' (by decide)
  · rcases List.mem_singleton.mp hr2 with rfl
    rintro ⟨-, h2⟩
    have h2' : xIdx (calculate_raster_parameters_utm
        [⟨0, 0, some 0⟩, ⟨10, 0, some 86400000⟩]) (10 : ℚ) = 9 := h2
    rw [hx10] at h2'
    exact absurd h2' (by decide)

namespace ExtractObs

/-!
## `Extration_S2_2N_observations.py`, `processar_pixel` (lines 38–76)

Observation dates are `ℤ` (the `'%Y%m%d'` strings of the source parse
and compare like the underlying dates); `pixel_vals[:, 0]` is the list
of band-0 values aligned with `datas_pixel`; 65535 marks an invalid
observation.  `sort_values` is the stable `List.insertionSort`.  The
per-band value lists (`g_a`, `g_d`, …) repeat the same selection with
`pixel_vals[:, b]` and are not modelled separately. -/

/-- `N_OBS = 10`. -/
def N_OBS : ℕ := 10

/-- Ascending by date on `(date, value)` pairs. -/
def dateAsc (a b : ℤ × ℤ) : Prop := a.1 ≤ b.1

/-- Descending by date on `(date, value)` pairs. -/
def dateDesc (a b : ℤ × ℤ) : Prop := b.1 ≤ a.1

instance : DecidableRel dateAsc :=
  fun a b => inferInstanceAs (Decidable (a.1 ≤ b.1))

instance : DecidableRel dateDesc :=
  fun a b => inferInstanceAs (Decidable (b.1 ≤ a.1))

instance : IsTotal (ℤ × ℤ) dateAsc := ⟨fun a b => le_total a.1 b.1⟩

instance : IsTrans (ℤ × ℤ) dateAsc := ⟨fun _ _ _ h1 h2 => le_trans h1 h2⟩

instance : IsTotal (ℤ × ℤ) dateDesc := ⟨fun a b => le_total b.1 a.1⟩

instance : IsTrans (ℤ × ℤ) dateDesc := ⟨fun _ _ _ h1 h2 => le_trans h2 h1⟩

/-- The fields of the returned row that the claim speaks about. -/
structure PixelRow where
  data_mid : ℤ
  dts_a : List ℤ
  dts_d : List ℤ
deriving DecidableEq

/-- The `(data, valor)` table before sorting: dates zipped with band-0
values, invalid observations (`valor == 65535`) removed. -/
def validPairs (datas vals : List ℤ) : List (ℤ × ℤ) :=
  (datas.zip vals).filter (fun p => p.2 != 65535)

/-- `df_base`: the valid pairs sorted by date (stable). -/
def df_base (datas vals : List ℤ) : List (ℤ × ℤ) :=
  List.insertionSort dateAsc (validPairs datas vals)

/-- `data_target_dt`: `data_0` unless `data_1` is present and differs,
in which case `data_0 + (data_1 - data_0).days // 2`. -/
def codeTarget (d0 : ℤ) (d1 : Option ℤ) : ℤ :=
  match d1 with
  | some dv => if dv ≠ d0 then d0 + (dv - d0).fdiv 2 else d0
  | none => d0

/-- `antes`: rows dated on or before the target, sorted descending,
first `N_OBS`. -/
def antes (datas vals : List ℤ) (T : ℤ) : List (ℤ × ℤ) :=
  (List.insertionSort dateDesc
    ((df_base datas vals).filter (fun p => decide (p.1 ≤ T)))).take N_OBS

/-- `depois`: rows dated strictly after the target, sorted ascending,
first `N_OBS`. -/
def depois (datas vals : List ℤ) (T : ℤ) : List (ℤ × ℤ) :=
  (List.insertionSort dateAsc
    ((df_base datas vals).filter (fun p => decide (T < p.1)))).take N_OBS

/-- Embedding of `processar_pixel` (the date fields of the returned
row): `dts_a = sorted(antes['data'])`, `dts_d = depois['data']`, with
the early return of empty lists when `df_base` is empty. -/
def processar_pixel (datas vals : List ℤ) (d0 : ℤ) (d1 : Option ℤ) :
    PixelRow :=
  let T := codeTarget d0 d1
  if (df_base datas vals).isEmpty then ⟨T, [], []⟩
  else ⟨T, sortAsc ((antes datas vals T).map Prod.fst),
    (depois datas vals T).map Prod.fst⟩

/-- The multiset of valid observation dates. -/
def validDates (datas vals : List ℤ) : List ℤ :=
  (validPairs datas vals).map Prod.fst

/-- Modelled from the claim's words: the target date — `data_0` when
`data_1` is absent or equal to `data_0`, otherwise `data_0` plus half
the whole number of days between `data_0` and `data_1`. -/
def specTargetDate (d0 : ℤ) (d1 : Option ℤ) : ℤ :=
  match d1 with
  | none => d0
  | some dv => if dv = d0 then d0 else d0 + (dv - d0).fdiv 2

/-- Modelled from the claim's words: the at most `N_OBS` valid
observation dates on or before `T` nearest to `T`, ascending — the
length-`N_OBS` suffix of the ascending ordering. -/
def specNearestBefore (datas vals : List ℤ) (T : ℤ) : List ℤ :=
  (sortAsc ((validDates datas vals).filter (fun d => decide (d ≤ T)))).drop
    ((sortAsc ((validDates datas vals).filter (fun d => decide (d ≤ T)))).length
      - N_OBS)

/-- Modelled from the claim's words: the at most `N_OBS` valid
observation dates strictly after `T` nearest to `T`, ascending — the
length-`N_OBS` prefix of the ascending ordering. -/
def specNearestAfter (datas vals : List ℤ) (T : ℤ) : List ℤ :=
  (sortAsc ((validDates datas vals).filter (fun d => decide (T < d)))).take N_OBS

lemma map_fst_filter_le (V : List (ℤ × ℤ)) (T : ℤ) :
    (V.filter (fun p => decide (p.1 ≤ T))).map Prod.fst =
      (V.map Prod.fst).filter (fun d => decide (d ≤ T)) := by
  induction V with
  | nil => rfl
  | cons a V ih => by_cases hq : a.1 ≤ T <;> simp [List.filter_cons, hq, ih]

lemma map_fst_filter_lt (V : List (ℤ × ℤ)) (T : ℤ) :
    (V.filter (fun p => decide (T < p.1))).map Prod.fst =
      (V.map Prod.fst).filter (fun d => decide (T < d)) := by
  induction V with
  | nil => rfl
  | cons a V ih => by_cases hq : T < a.1 <;> simp [List.filter_cons, hq, ih]

lemma map_fst_sortAscP (l : List (ℤ × ℤ)) :
    (List.insertionSort dateAsc l).map Prod.fst = sortAsc (l.map Prod.fst) := by
  refine List.eq_of_perm_of_sorted ?_ ?_ (sorted_sortAsc _)
  · exact ((List.perm_insertionSort dateAsc l).map _).trans
      (perm_sortAsc _).symm
  · exact List.Pairwise.map _ (fun a b h => h)
      (List.sorted_insertionSort dateAsc l)

lemma map_fst_sortDescP (l : List (ℤ × ℤ)) :
    (List.insertionSort dateDesc l).map Prod.fst = sortDesc (l.map Prod.fst) := by
  refine List.eq_of_perm_of_sorted ?_ ?_ (sorted_sortDesc _)
  · exact ((List.perm_insertionSort dateDesc l).map _).trans
      (perm_sortDesc _).symm
  · exact List.Pairwise.map _ (fun a b h => h)
      (List.sorted_insertionSort dateDesc l)

lemma map_fst_df_base (datas vals : List ℤ) :
    (df_base datas vals).map Prod.fst = sortAsc (validDates datas vals) :=
  map_fst_sortAscP _

lemma dts_a_eq (datas vals : List ℤ) (T : ℤ) :
    sortAsc ((antes datas vals T).map Prod.fst) =
      specNearestBefore datas vals T := by
  unfold antes specNearestBefore
  rw [List.map_take, map_fst_sortDescP, map_fst_filter_le, map_fst_df_base]
  have h2 : sortDesc ((sortAsc (validDates datas vals)).filter
        (fun d => decide (d ≤ T))) =
      sortDesc ((validDates datas vals).filter (fun d => decide (d ≤ T))) :=
    sortDesc_congr ((perm_sortAsc _).filter _)
  rw [h2, sortAsc_take_sortDesc]

lemma dts_d_eq (datas vals : List ℤ) (T : ℤ) :
    (depois datas vals T).map Prod.fst = specNearestAfter datas vals T := by
  unfold depois specNearestAfter
  rw [List.map_take, map_fst_sortAscP, map_fst_filter_lt, map_fst_df_base]
  congr 1
  exact sortAsc_congr ((perm_sortAsc _).filter _)

lemma codeTarget_eq_spec (d0 : ℤ) (d1 : Option ℤ) :
    codeTarget d0 d1 = specTargetDate d0 d1 := by
  cases d1 with
  | none => rfl
  | some dv =>
    by_cases h : dv = d0 <;> simp [codeTarget, specTargetDate, h]

lemma specNearestBefore_empty (T : ℤ) {datas vals : List ℤ}
    (h : validPairs datas vals = []) : specNearestBefore datas vals T = [] := by
  unfold specNearestBefore validDates
  rw [h]
  rfl

lemma specNearestAfter_empty (T : ℤ) {datas vals : List ℤ}
    (h : validPairs datas vals = []) : specNearestAfter datas vals T = [] := by
  unfold specNearestAfter validDates
  rw [h]
  rfl

lemma specNearestBefore_length (datas vals : List ℤ) (T : ℤ) :
    (specNearestBefore datas vals T).length ≤ N_OBS := by
  unfold specNearestBefore
  rw [List.length_drop]
  omega

lemma specNearestAfter_length (datas vals : List ℤ) (T : ℤ) :
    (specNearestAfter datas vals T).length ≤ N_OBS := by
  unfold specNearestAfter
  rw [List.length_take]
  exact min_le_left _ _

lemma specNearestBefore_sorted (datas vals : List ℤ) (T : ℤ) :
    (specNearestBefore datas vals T).Sorted (· ≤ ·) :=
  List.Pairwise.sublist (List.drop_sublist _ _) (sorted_sortAsc _)

lemma specNearestAfter_sorted (datas vals : List ℤ) (T : ℤ) :
    (specNearestAfter datas vals T).Sorted (· ≤ ·) :=
  List.Pairwise.sublist (List.take_sublist _ _) (sorted_sortAsc _)

lemma mem_specNearestBefore {datas vals : List ℤ} {T d : ℤ}
    (h : d ∈ specNearestBefore datas vals T) :
    d ≤ T ∧ d ∈ validDates datas vals := by
  unfold specNearestBefore at h
  have h1 : d ∈ sortAsc ((validDates datas vals).filter
      (fun d => decide (d ≤ T))) := List.mem_of_mem_drop h
  have h2 := (perm_sortAsc _).mem_iff.mp h1
  obtain ⟨hmem, hdec⟩ := List.mem_filter.mp h2
  exact ⟨of_decide_eq_true hdec, hmem⟩

lemma mem_specNearestAfter {datas vals : List ℤ} {T d : ℤ}
    (h : d ∈ specNearestAfter datas vals T) :
    T < d ∧ d ∈ validDates datas vals := by
  unfold specNearestAfter at h
  have h1 : d ∈ sortAsc ((validDates datas vals).filter
      (fun d => decide (T < d))) := List.mem_of_mem_take h
  have h2 := (perm_sortAsc _).mem_iff.mp h1
  obtain ⟨hmem, hdec⟩ := List.mem_filter.mp h2
  exact ⟨of_decide_eq_true hdec, hmem⟩

end ExtractObs

open ExtractObs in
/-- C4: `processar_pixel` returns as `dts_a` the at most `N_OBS = 10`
valid (≠ 65535) observation dates on or before the target date that are
nearest to it, and as `dts_d` the at most `N_OBS` valid dates strictly
after the target nearest to it, both in ascending order — i.e. the
length-10 suffix (resp. prefix) of the ascending ordering of the valid
dates on either side of the target; the target (`data_mid`) is `data_0`
when `data_1` is absent or equal to `data_0`, and otherwise `data_0`
plus half the whole number of days between `data_0` and `data_1`. -/
theorem c4_processar_pixel_observations (datas vals : List ℤ) (d0 : ℤ)
    (d1 : Option ℤ) :
    (processar_pixel datas vals d0 d1).data_mid = specTargetDate d0 d1 ∧
    (processar_pixel datas vals d0 d1).dts_a =
      specNearestBefore datas vals (specTargetDate d0 d1) ∧
    (processar_pixel datas vals d0 d1).dts_d =
      specNearestAfter datas vals (specTargetDate d0 d1) ∧
    (processar_pixel datas vals d0 d1).dts_a.length ≤ N_OBS ∧
    (processar_pixel datas vals d0 d1).dts_d.length ≤ N_OBS ∧
    (processar_pixel datas vals d0 d1).dts_a.Sorted (· ≤ ·) ∧
    (processar_pixel datas vals d0 d1).dts_d.Sorted (· ≤ ·) ∧
    (∀ d ∈ (processar_pixel datas vals d0 d1).dts_a,
      d ≤ specTargetDate d0 d1 ∧ d ∈ validDates datas vals) ∧
    (∀ d ∈ (processar_pixel datas vals d0 d1).dts_d,
      specTargetDate d0 d1 < d ∧ d ∈ validDates datas vals) := by
  have hT := codeTarget_eq_spec d0 d1
  by_cases hemp : (df_base datas vals).isEmpty
  · have hnil : validPairs datas vals = [] := by
      have hp := List.perm_insertionSort dateAsc (validPairs datas vals)
      rw [show List.insertionSort dateAsc (validPairs datas vals) =
        df_base datas vals from rfl, List.isEmpty_iff.mp hemp] at hp
      exact hp.symm.eq_nil
    have hproc : processar_pixel datas vals d0 d1 =
        ⟨codeTarget d0 d1, [], []⟩ := by
      show (if (df_base datas vals).isEmpty
        then (⟨codeTarget d0 d1, [], []⟩ : PixelRow)
        else ⟨codeTarget d0 d1,
          sortAsc ((antes datas vals (codeTarget d0 d1)).map Prod.fst),
          (depois datas vals (codeTarget d0 d1)).map Prod.fst⟩) =
        ⟨codeTarget d0 d1, [], []⟩
      rw [if_pos hemp]
    rw [hproc]
    refine ⟨hT, ?_, ?_, by norm_num [N_OBS], by norm_num [N_OBS],
      List.sorted_nil, List.sorted_nil, by simp, by simp⟩
    · exact (specNearestBefore_empty _ hnil).symm
    · exact (specNearestAfter_empty _ hnil).symm
  · have hproc : processar_pixel datas vals d0 d1 =
        ⟨codeTarget d0 d1,
          sortAsc ((antes datas vals (codeTarget d0 d1)).map Prod.fst),
          (depois datas vals (codeTarget d0 d1)).map Prod.fst⟩ := by
      show (if (df_base datas vals).isEmpty
        then (⟨codeTarget d0 d1, [], []⟩ : PixelRow)
        else ⟨codeTarget d0 d1,
          sortAsc ((antes datas vals (codeTarget d0 d1)).map Prod.fst),
          (depois datas vals (codeTarget d0 d1)).map Prod.fst⟩) = _
      rw [if_neg hemp]
    rw [hproc, hT]
    have ha := dts_a_eq datas vals (specTargetDate d0 d1)
    have hd := dts_d_eq datas vals (specTargetDate d0 d1)
    refine ⟨rfl, ha, hd, ?_, ?_, ?_, ?_, ?_, ?_⟩
    · rw [show (⟨specTargetDate d0 d1,
        sortAsc ((antes datas vals (specTargetDate d0 d1)).map Prod.fst),
        (depois datas vals (specTargetDate d0 d1)).map Prod.fst⟩ :
          PixelRow).dts_a =
        sortAsc ((antes datas vals (specTargetDate d0 d1)).map Prod.fst)
        from rfl, ha]
      exact specNearestBefore_length datas vals _
    · rw [show (⟨specTargetDate d0 d1,
        sortAsc ((antes datas vals (specTargetDate d0 d1)).map Prod.fst),
        (depois datas vals (specTargetDate d0 d1)).map Prod.fst⟩ :
          PixelRow).dts_d =
        (depois datas vals (specTargetDate d0 d1)).map Prod.fst
        from rfl, hd]
      exact specNearestAfter_length datas vals _
    · rw [show (⟨specTargetDate d0 d1,
        sortAsc ((antes datas vals (specTargetDate d0 d1)).map Prod.fst),
        (depois datas vals (specTargetDate d0 d1)).map Prod.fst⟩ :
          PixelRow).dts_a =
        sortAsc ((antes datas vals (specTargetDate d0 d1)).map Prod.fst)
        from rfl, ha]
      exact specNearestBefore_sorted datas vals _
    · rw [show (⟨specTargetDate d0 d1,
        sortAsc ((antes datas vals (specTargetDate d0 d1)).map Prod.fst),
        (depois datas vals (specTargetDate d0 d1)).map Prod.fst⟩ :
          PixelRow).dts_d =
        (depois datas vals (specTargetDate d0 d1)).map Prod.fst
        from rfl, hd]
      exact specNearestAfter_sorted datas vals _
    · intro d hdm
      rw [show (⟨specTargetDate d0 d1,
        sortAsc ((antes datas vals (specTargetDate d0 d1)).map Prod.fst),
        (depois datas vals (specTargetDate d0 d1)).map Prod.fst⟩ :
          PixelRow).dts_a =
        sortAsc ((antes datas vals (specTargetDate d0 d1)).map Prod.fst)
        from rfl, ha] at hdm
      exact mem_specNearestBefore hdm
    · intro d hdm
      rw [show (⟨specTargetDate d0 d1,
        sortAsc ((antes datas vals (specTargetDate d0 d1)).map Prod.fst),
        (depois datas vals (specTargetDate d0 d1)).map Prod.fst⟩ :
          PixelRow).dts_d =
        (depois datas vals (specTargetDate d0 d1)).map Prod.fst
        from rfl, hd] at hdm
      exact mem_specNearestAfter hdm

example :
    (ExtractObs.processar_pixel
      [5, 1, 3, 2, 4, 8, 6, 7, 9, 11, 10, 12, 20, 21]
      [1, 1, 1, 1, 1, 1, 1, 1, 1, 1, 1, 1, 1, 65535] 15 none).data_mid = 15 ∧
    (ExtractObs.processar_pixel
      [5, 1, 3, 2, 4, 8, 6, 7, 9, 11, 10, 12, 20, 21]
      [1, 1, 1, 1, 1, 1, 1, 1, 1, 1, 1, 1, 1, 65535] 15 none).dts_a =
      [3, 4, 5, 6, 7, 8, 9, 10, 11, 12] ∧
    (ExtractObs.processar_pixel
      [5, 1, 3, 2, 4, 8, 6, 7, 9, 11, 10, 12, 20, 21]
      [1, 1, 1, 1, 1, 1, 1, 1, 1, 1, 1, 1, 1, 65535] 15 none).dts_d = [20] := by
  decide

/-- Witness for C4 at a pixel with 13 valid observations, twelve on or
before the target 15 and one after it. -/
theorem c4_processar_pixel_observations_witness :
    (ExtractObs.processar_pixel
      [5, 1, 3, 2, 4, 8, 6, 7, 9, 11, 10, 12, 20, 21]
      [1, 1, 1, 1, 1, 1, 1, 1, 1, 1, 1, 1, 1, 65535] 15 none).data_mid =
      ExtractObs.specTargetDate 15 none ∧
    (ExtractObs.processar_pixel
      [5, 1, 3, 2, 4, 8, 6, 7, 9, 11, 10, 12, 20, 21]
      [1, 1, 1, 1, 1, 1, 1, 1, 1, 1, 1, 1, 1, 65535] 15 none).dts_a =
      ExtractObs.specNearestBefore
        [5, 1, 3, 2, 4, 8, 6, 7, 9, 11, 10, 12, 20, 21]
        [1, 1, 1, 1, 1, 1, 1, 1, 1, 1, 1, 1, 1, 65535]
        (ExtractObs.specTargetDate 15 none) ∧
    (ExtractObs.processar_pixel
      [5, 1, 3, 2, 4, 8, 6, 7, 9, 11, 10, 12, 20, 21]
      [1, 1, 1, 1, 1, 1, 1, 1, 1, 1, 1, 1, 1, 65535] 15 none).dts_d =
      ExtractObs.specNearestAfter
        [5, 1, 3, 2, 4, 8, 6, 7, 9, 11, 10, 12, 20, 21]
        [1, 1, 1, 1, 1, 1, 1, 1, 1, 1, 1, 1, 1, 65535]
        (ExtractObs.specTargetDate 15 none) ∧
    (ExtractObs.processar_pixel
      [5, 1, 3, 2, 4, 8, 6, 7, 9, 11, 10, 12, 20, 21]
      [1, 1, 1, 1, 1, 1, 1, 1, 1, 1, 1, 1, 1, 65535] 15 none).dts_a.length ≤
      ExtractObs.N_OBS ∧
    (ExtractObs.processar_pixel
      [5, 1, 3, 2, 4, 8, 6, 7, 9, 11, 10, 12, 20, 21]
      [1, 1, 1, 1, 1, 1, 1, 1, 1, 1, 1, 1, 1, 65535] 15 none).dts_d.length ≤
      ExtractObs.N_OBS ∧
    (ExtractObs.processar_pixel
      [5, 1, 3, 2, 4, 8, 6, 7, 9, 11, 10, 12, 20, 21]
      [1, 1, 1, 1, 1, 1, 1, 1, 1, 1, 1, 1, 1, 65535] 15 none).dts_a.Sorted
      (· ≤ ·) ∧
    (ExtractObs.processar_pixel
      [5, 1, 3, 2, 4, 8, 6, 7, 9, 11, 10, 12, 20, 21]
      [1, 1, 1, 1, 1, 1, 1, 1, 1, 1, 1, 1, 1, 65535] 15 none).dts_d.Sorted
      (· ≤ ·) ∧
    (∀ d ∈ (ExtractObs.processar_pixel
      [5, 1, 3, 2, 4, 8, 6, 7, 9, 11, 10, 12, 20, 21]
      [1, 1, 1, 1, 1, 1, 1, 1, 1, 1, 1, 1, 1, 65535] 15 none).dts_a,
      d ≤ ExtractObs.specTargetDate 15 none ∧
        d ∈ ExtractObs.validDates
          [5, 1, 3, 2, 4, 8, 6, 7, 9, 11, 10, 12, 20, 21]
          [1, 1, 1, 1, 1, 1, 1, 1, 1, 1, 1, 1, 1, 65535]) ∧
    (∀ d ∈ (ExtractObs.processar_pixel
      [5, 1, 3, 2, 4, 8, 6, 7, 9, 11, 10, 12, 20, 21]
      [1, 1, 1, 1, 1, 1, 1, 1, 1, 1, 1, 1, 1, 65535] 15 none).dts_d,
      ExtractObs.specTargetDate 15 none < d ∧
        d ∈ ExtractObs.validDates
          [5, 1, 3, 2, 4, 8, 6, 7, 9, 11, 10, 12, 20, 21]
          [1, 1, 1, 1, 1, 1, 1, 1, 1, 1, 1, 1, 1, 65535]) :=
  c4_processar_pixel_observations
    [5, 1, 3, 2, 4, 8, 6, 7, 9, 11, 10, 12, 20, 21]
    [1, 1, 1, 1, 1, 1, 1, 1, 1, 1, 1, 1, 1, 65535] 15 none

namespace CcdStyle

/-!
## `ccd_break_filter_to_raster.py`, `create_qgis_style_file` (lines 399–482)

The style file's `paletteEntry` values: the function groups the valid
(`~pd.isna`) `tBreak` values by calendar year in a dict, iterates the
years in `sorted` order, and emits one entry per element of
`sorted(set(...))` of that year's `YYYYMMDD` integers, followed by the
`-9999` nodata entry.  Since each per-year list is deduplicated and
sorted and the year keys are sorted, the dict's insertion order is
irrelevant and the emitted value list is the per-year-sorted
concatenation built here.  Colors and labels are cosmetic (matplotlib
colormap and HSV floats) and are not modelled. -/

/-- The `value` attributes of the `paletteEntry` elements written by
`create_qgis_style_file`, in order.  The input is the `tBreak` column
(`none` for `NaN`). -/
def styleEntryValues (points : List (Option ℤ)) : List ℤ :=
  (sortAsc ((points.filterMap id).map DateConv.yearOfMs).dedup).flatMap
    (fun y => sortAsc
      ((((points.filterMap id).filter
          (fun t => DateConv.yearOfMs t == y)).map
        DateConv.msToYYYYMMDD).dedup)) ++ [-9999]

/-- One year's block of entry values. -/
def yearBlock (valid : List ℤ) (y : ℤ) : List ℤ :=
  sortAsc (((valid.filter (fun t => DateConv.yearOfMs t == y)).map
    DateConv.msToYYYYMMDD).dedup)

lemma styleEntryValues_eq (points : List (Option ℤ)) :
    styleEntryValues points =
      (sortAsc ((points.filterMap id).map DateConv.yearOfMs).dedup).flatMap
        (yearBlock (points.filterMap id)) ++ [-9999] := rfl

lemma mem_yearBlock {valid : List ℤ} {y a : ℤ} :
    a ∈ yearBlock valid y ↔
      ∃ t ∈ valid, DateConv.yearOfMs t = y ∧ DateConv.msToYYYYMMDD t = a := by
  unfold yearBlock
  rw [(perm_sortAsc _).mem_iff, List.mem_dedup]
  constructor
  · intro h
    obtain ⟨t, ht, hta⟩ := List.mem_map.mp h
    obtain ⟨htv, hdec⟩ := List.mem_filter.mp ht
    exact ⟨t, htv, by simpa using hdec, hta⟩
  · rintro ⟨t, htv, hy, hta⟩
    exact List.mem_map.mpr ⟨t, List.mem_filter.mpr ⟨htv, by simpa using hy⟩, hta⟩

lemma nodup_yearBlock (valid : List ℤ) (y : ℤ) : (yearBlock valid y).Nodup :=
  ((List.nodup_dedup _).perm (perm_sortAsc _).symm)

lemma sorted_yearBlock (valid : List ℤ) (y : ℤ) :
    (yearBlock valid y).Sorted (· ≤ ·) := sorted_sortAsc _

/-- Bounds on the date pieces of a timestamp within the modelled
range. -/
lemma ms_pieces_bounds {t : ℤ} (h0 : 0 ≤ t)
    (h1 : t.fdiv DateConv.msPerDay < 365 * (DateConv.FUEL : ℤ)) :
    101 ≤ DateConv.mdOfMs t ∧ DateConv.mdOfMs t ≤ 1231 ∧
      1970 ≤ DateConv.yearOfMs t := by
  have hd0 : 0 ≤ t.fdiv DateConv.msPerDay :=
    Int.fdiv_nonneg h0 (by norm_num [DateConv.msPerDay])
  have := DateConv.ymdOfDays_bounds hd0 h1
  exact ⟨this.1, this.2.1, this.2.2⟩

lemma sorted_flatMap (ys : List ℤ) (f : ℤ → List ℤ)
    (hys : ys.Pairwise (· < ·))
    (hf : ∀ y ∈ ys, (f y).Sorted (· ≤ ·))
    (hcross : ∀ y ∈ ys, ∀ y' ∈ ys, y < y' → ∀ a ∈ f y, ∀ b ∈ f y', a ≤ b) :
    (ys.flatMap f).Sorted (· ≤ ·) := by
  induction ys with
  | nil => simp
  | cons y rest ih =>
    rw [List.flatMap_cons]
    refine List.pairwise_append.mpr
      ⟨hf y (List.mem_cons_self _ _), ?_, ?_⟩
    · exact ih (List.Pairwise.of_cons hys)
        (fun y' h => hf y' (List.mem_cons_of_mem _ h))
        (fun y1 h1 y2 h2 hlt => hcross y1 (List.mem_cons_of_mem _ h1)
          y2 (List.mem_cons_of_mem _ h2) hlt)
    · intro a ha b hb
      obtain ⟨y', hy', hb'⟩ := List.mem_flatMap.mp hb
      exact hcross y (List.mem_cons_self _ _) y' (List.mem_cons_of_mem _ hy')
        ((List.pairwise_cons.mp hys).1 y' hy') a ha b hb'

lemma nodup_flatMap (ys : List ℤ) (f : ℤ → List ℤ)
    (hys : ys.Nodup)
    (hf : ∀ y ∈ ys, (f y).Nodup)
    (hdisj : ∀ y ∈ ys, ∀ y' ∈ ys, y ≠ y' → ∀ a, a ∈ f y → a ∉ f y') :
    (ys.flatMap f).Nodup := by
  induction ys with
  | nil => simp
  | cons y rest ih =>
    rw [List.flatMap_cons]
    refine List.Nodup.append (hf y (List.mem_cons_self _ _))
      (ih (List.Nodup.of_cons hys)
        (fun y' h => hf y' (List.mem_cons_of_mem _ h))
        (fun y1 h1 y2 h2 hne => hdisj y1 (List.mem_cons_of_mem _ h1)
          y2 (List.mem_cons_of_mem _ h2) hne)) ?_
    intro a ha hb
    obtain ⟨y', hy', hb'⟩ := List.mem_flatMap.mp hb
    have hyne : y ≠ y' := by
      rintro rfl
      exact (List.nodup_cons.mp hys).1 hy'
    exact hdisj y (List.mem_cons_self _ _) y' (List.mem_cons_of_mem _ hy')
      hyne a ha hb'

end CcdStyle

open CcdStyle DateConv in
/-- C7: for an input with at least one non-null `tBreak` (all within the
pandas timestamp range, which the modelled fuel bound covers),
`create_qgis_style_file` writes exactly one `paletteEntry` per distinct
break date, with value the date as integer `YYYYMMDD`, ordered by
ascending year and, within a year, ascending date — i.e. the ascending
ordering of the distinct date integers — followed by the final `-9999`
nodata entry. -/
theorem c7_qgis_style_entries (points : List (Option ℤ))
    (_hne : points.filterMap id ≠ [])
    (hrange : ∀ t ∈ points.filterMap id,
      0 ≤ t ∧ t.fdiv msPerDay < 365 * (FUEL : ℤ)) :
    styleEntryValues points =
      sortAsc (((points.filterMap id).map msToYYYYMMDD).dedup) ++ [-9999] := by
  rw [styleEntryValues_eq]
  congr 1
  have hb : ∀ t ∈ points.filterMap id,
      101 ≤ mdOfMs t ∧ mdOfMs t ≤ 1231 ∧ 1970 ≤ yearOfMs t :=
    fun t ht => ms_pieces_bounds (hrange t ht).1 (hrange t ht).2
  have hysnd : (sortAsc ((points.filterMap id).map yearOfMs).dedup).Nodup :=
    (List.nodup_dedup _).perm (perm_sortAsc _).symm
  have hyslt : (sortAsc ((points.filterMap id).map yearOfMs).dedup).Pairwise
      (· < ·) :=
    ((sorted_sortAsc _).and hysnd).imp (fun h => lt_of_le_of_ne h.1 h.2)
  have hmemys : ∀ y, y ∈ sortAsc ((points.filterMap id).map yearOfMs).dedup ↔
      ∃ t ∈ points.filterMap id, yearOfMs t = y := by
    intro y
    rw [(perm_sortAsc _).mem_iff, List.mem_dedup, List.mem_map]
  have hsortedL : ((sortAsc ((points.filterMap id).map yearOfMs).dedup).flatMap
      (yearBlock (points.filterMap id))).Sorted (· ≤ ·) := by
    refine sorted_flatMap _ _ hyslt (fun y _ => sorted_yearBlock _ y) ?_
    intro y _ y' _ hlt a ha b hb'
    obtain ⟨t1, ht1, hy1, hv1⟩ := mem_yearBlock.mp ha
    obtain ⟨t2, ht2, hy2, hv2⟩ := mem_yearBlock.mp hb'
    have e1 := msToYYYYMMDD_decomp t1
    have e2 := msToYYYYMMDD_decomp t2
    have b1 := hb t1 ht1
    have b2 := hb t2 ht2
    omega
  have hnodupL : ((sortAsc ((points.filterMap id).map yearOfMs).dedup).flatMap
      (yearBlock (points.filterMap id))).Nodup := by
    refine nodup_flatMap _ _ hysnd (fun y _ => nodup_yearBlock _ y) ?_
    intro y _ y' _ hne' a ha ha'
    obtain ⟨t1, ht1, hy1, hv1⟩ := mem_yearBlock.mp ha
    obtain ⟨t2, ht2, hy2, hv2⟩ := mem_yearBlock.mp ha'
    have e1 := msToYYYYMMDD_decomp t1
    have e2 := msToYYYYMMDD_decomp t2
    have b1 := hb t1 ht1
    have b2 := hb t2 ht2
    omega
  have hnodupR : (sortAsc (((points.filterMap id).map msToYYYYMMDD).dedup)).Nodup :=
    (List.nodup_dedup _).perm (perm_sortAsc _).symm
  refine List.eq_of_perm_of_sorted
    ((List.perm_ext_iff_of_nodup hnodupL hnodupR).mpr ?_)
    hsortedL (sorted_sortAsc _)
  intro a
  rw [(perm_sortAsc (((points.filterMap id).map msToYYYYMMDD).dedup)).mem_iff,
    List.mem_dedup, List.mem_map, List.mem_flatMap]
  constructor
  · rintro ⟨y, hy, ha⟩
    obtain ⟨t, ht, -, hv⟩ := mem_yearBlock.mp ha
    exact ⟨t, ht, hv⟩
  · rintro ⟨t, ht, hv⟩
    refine ⟨yearOfMs t, (hmemys _).mpr ⟨t, ht, rfl⟩, ?_⟩
    exact mem_yearBlock.mpr ⟨t, ht, rfl, hv⟩

example : CcdStyle.styleEntryValues
    [some 0, none, some 86400000, some 1577836800000, some 86400000] =
    [19700101, 19700102, 20200101, -9999] := by decide

/-- Witness for C7 on three distinct dates (one duplicated, one null)
across the years 1970 and 2020. -/
theorem c7_qgis_style_entries_witness :
    CcdStyle.styleEntryValues
      [some 0, none, some 86400000, some 1577836800000, some 86400000] =
      sortAsc ((([some 0, none, some 86400000, some 1577836800000,
        some 86400000].filterMap id).map DateConv.msToYYYYMMDD).dedup) ++
        [-9999] :=
  c7_qgis_style_entries
    [some 0, none, some 86400000, some 1577836800000, some 86400000]
    (by decide) (by decide)

namespace ExpandCols

/-!
## `Extration_S2_2N_observations.py`, `expandir_listas_em_colunas` (lines 78–86)

A DataFrame is a list of named columns; a cell holds an integer, a list
of integers, or `None`/`NaN`.  `df[name] = series` replaces an existing
column in place or appends a new one at the end; `df.drop(columns=[name])`
raises `KeyError` (modelled as `Except.error ()`) when the column is
absent — which happens when a column name starts with two of the
prefixes, because the inner loop then drops it twice.  `str.startswith`
is the character-prefix test on the name. -/

/-- A DataFrame cell. -/
inductive Val where
  | vInt (n : ℤ)
  | vList (xs : List ℤ)
  | vNone
deriving DecidableEq

/-- A DataFrame: named columns in order. -/
abbrev DF := List (String × List Val)

/-- Column access by name (`df[name]`), `none` when absent. -/
def dfLookup (df : DF) (n : String) : Option (List Val) :=
  (df.find? (fun p => p.1 == n)).map Prod.snd

/-- `df[name] = cells`: replace in place, or append at the end. -/
def dfAssign (df : DF) (n : String) (c : List Val) : DF :=
  if df.any (fun p => p.1 == n) then
    df.map (fun p => if p.1 == n then (n, c) else p)
  else df ++ [(n, c)]

/-- `df.drop(columns=[name])`: `KeyError` when the column is absent. -/
def dfDropCol (df : DF) (n : String) : Except Unit DF :=
  if df.any (fun p => p.1 == n) then
    Except.ok (df.filter (fun p => !(p.1 == n)))
  else Except.error ()

/-- `isinstance(x, list)`. -/
def isListVal : Val → Bool
  | Val.vList _ => true
  | _ => false

/-- `df[col].apply(lambda x: isinstance(x, list)).any()`. -/
def hasListVal (c : List Val) : Bool := c.any isListVal

/-- `x[i] if isinstance(x, list) and len(x) > i else None`. -/
def itemAt (i : ℕ) : Val → Val
  | Val.vList xs => if i < xs.length then Val.vInt (xs.getD i 0) else Val.vNone
  | _ => Val.vNone

/-- The `i`-th expanded column extracted from the original column. -/
def expandedCol (orig : List Val) (i : ℕ) : List Val := orig.map (itemAt i)

/-- `str.startswith`. -/
def nameStartsWith (n pfx : String) : Bool := pfx.data.isPrefixOf n.data

/-- The name `f'{col}{i+1}'` of the `(i+1)`-st generated column. -/
def genName (n : String) (i : ℕ) : String := n ++ toString (i + 1)

/-- The original cells of column `n` of the input frame. -/
def origOf (df : DF) (n : String) : List Val := (dfLookup df n).getD []

/-- The inner `for i in range(max_itens)` loop: assign the generated
columns, extracted from the ORIGINAL frame's column. -/
def assignAll (df : DF) (acc : DF) (n : String) (m : ℕ) : DF :=
  (List.range m).foldl
    (fun a i => dfAssign a (genName n i) (expandedCol (origOf df n) i)) acc

/-- The body of the inner `if`: assign the `max_itens` generated
columns, then drop the original column. -/
def expandCol (df : DF) (acc : DF) (n : String) (m : ℕ) : Except Unit DF :=
  dfDropCol (assignAll df acc n m) n

/-- The inner loop over the prefixes for one column, with exception
propagation. -/
def expandStep (df : DF) (pfxs : List String) (m : ℕ)
    (acc : Except Unit DF) (n : String) : Except Unit DF :=
  pfxs.foldl (fun a pfx =>
    match a with
    | Except.error e => Except.error e
    | Except.ok d =>
      if nameStartsWith n pfx && hasListVal (origOf df n) then
        expandCol df d n m
      else Except.ok d) acc

/-- Embedding of `expandir_listas_em_colunas(df, prefixos, max_itens)`:
the outer loop over the original frame's columns. -/
def expandir_listas_em_colunas (df : DF) (pfxs : List String) (m : ℕ) :
    Except Unit DF :=
  (df.map Prod.fst).foldl (expandStep df pfxs m) (Except.ok df)

/-- A column that the function expands: it holds at least one list
value and its name starts with one of the prefixes. -/
def matchedCol (df : DF) (pfxs : List String) (n : String) : Prop :=
  hasListVal (origOf df n) = true ∧
    ∃ pfx ∈ pfxs, nameStartsWith n pfx = true

lemma dfLookup_isSome_of_mem {df : DF} {n : String}
    (h : n ∈ df.map Prod.fst) : (dfLookup df n).isSome := by
  obtain ⟨p, hp, hpn⟩ := List.mem_map.mp h
  unfold dfLookup
  cases hf : df.find? (fun q => q.1 == n) with
  | none =>
    rw [List.find?_eq_none] at hf
    have h2 := hf p hp
    simp at h2
    exact absurd hpn h2
  | some x => rfl

lemma find?_map_update (A : DF) (n : String) (c : List Val) :
    (A.map (fun p => if p.1 == n then (n, c) else p)).find?
        (fun p => p.1 == n) =
      (A.find? (fun p => p.1 == n)).map (fun _ => (n, c)) := by
  induction A with
  | nil => rfl
  | cons a A ih =>
    by_cases h : a.1 = n
    · rw [List.map_cons, if_pos (by simp [h]),
        List.find?_cons_of_pos _ (by simp), List.find?_cons_of_pos _ (by simp [h])]
      rfl
    · rw [List.map_cons, if_neg (by simp [h]),
        List.find?_cons_of_neg _ (by simp [h]), List.find?_cons_of_neg _ (by simp [h])]
      exact ih

lemma find?_append_of_none {A : DF} {q : String × List Val → Bool}
    (h : A.find? q = none) (l2 : DF) : (A ++ l2).find? q = l2.find? q := by
  induction A with
  | nil => rfl
  | cons a A ih =>
    rw [List.find?_eq_none] at h
    have ha : q a = false := by
      have := h a (List.mem_cons_self _ _)
      simpa using this
    rw [List.cons_append, List.find?_cons_of_neg _ (by simp [ha])]
    exact ih (by rw [List.find?_eq_none]; exact fun x hx => h x (List.mem_cons_of_mem _ hx))

lemma find?_append_of_some {A : DF} {q : String × List Val → Bool}
    {x : String × List Val} (h : A.find? q = some x) (l2 : DF) :
    (A ++ l2).find? q = some x := by
  induction A with
  | nil => simp at h
  | cons a A ih =>
    by_cases ha : q a = true
    · rw [List.find?_cons_of_pos _ ha] at h
      rw [List.cons_append, List.find?_cons_of_pos _ ha]
      exact h
    · rw [List.find?_cons_of_neg _ (by simpa using ha)] at h
      rw [List.cons_append, List.find?_cons_of_neg _ (by simpa using ha)]
      exact ih h

lemma dfLookup_assign_self (A : DF) (n : String) (c : List Val) :
    dfLookup (dfAssign A n c) n = some c := by
  unfold dfAssign
  by_cases h : A.any (fun p => p.1 == n)
  · rw [if_pos h]
    unfold dfLookup
    rw [find?_map_update]
    obtain ⟨x, hx, hqx⟩ := List.any_eq_true.mp h
    cases hf : A.find? (fun p => p.1 == n) with
    | none =>
      rw [List.find?_eq_none] at hf
      exact absurd hqx (by simpa using hf x hx)
    | some y => rfl
  · rw [if_neg h]
    unfold dfLookup
    rw [find?_append_of_none ?hnone, List.find?_cons_of_pos _ (by simp)]
    · rfl
    case hnone =>
      rw [List.find?_eq_none]
      intro x hx
      by_contra hq
      exact h (List.any_eq_true.mpr ⟨x, hx, by simpa using hq⟩)

lemma find?_map_update_other (A : DF) (n : String) (c : List Val)
    {q : String} (hq : q ≠ n) :
    (A.map (fun p => if p.1 == n then (n, c) else p)).find?
        (fun p => p.1 == q) =
      A.find? (fun p => p.1 == q) := by
  induction A with
  | nil => rfl
  | cons a A ih =>
    by_cases han : a.1 = n
    · have haq : ¬ a.1 = q := by
        rw [han]
        exact fun hc => hq hc.symm
      rw [List.map_cons, if_pos (by simp [han]),
        List.find?_cons_of_neg _ (by simp; exact fun hc => hq hc.symm),
        List.find?_cons_of_neg _ (by simpa using haq)]
      exact ih
    · rw [List.map_cons, if_neg (by simp [han])]
      by_cases haq : a.1 = q
      · rw [List.find?_cons_of_pos _ (by simp [haq]),
          List.find?_cons_of_pos _ (by simp [haq])]
      · rw [List.find?_cons_of_neg _ (by simp [haq]),
          List.find?_cons_of_neg _ (by simp [haq])]
        exact ih

lemma dfLookup_assign_other (A : DF) (n : String) (c : List Val)
    {q : String} (hq : q ≠ n) : dfLookup (dfAssign A n c) q = dfLookup A q := by
  unfold dfAssign
  by_cases h : A.any (fun p => p.1 == n)
  · rw [if_pos h]
    unfold dfLookup
    rw [find?_map_update_other A n c hq]
  · rw [if_neg h]
    unfold dfLookup
    cases hf : A.find? (fun p => p.1 == q) with
    | none =>
      rw [find?_append_of_none hf, List.find?_cons_of_neg _
        (by simp; exact fun hc => hq hc.symm)]
      rfl
    | some x =>
      rw [find?_append_of_some hf]

lemma dfDropCol_ok {A : DF} {n : String} (h : (dfLookup A n).isSome) :
    dfDropCol A n = Except.ok (A.filter (fun p => !(p.1 == n))) := by
  unfold dfDropCol
  rw [if_pos]
  unfold dfLookup at h
  cases hf : A.find? (fun p => p.1 == n) with
  | none =>
    rw [hf] at h
    simp at h
  | some x =>
    have hx := List.mem_of_find?_eq_some hf
    have hpred := List.find?_some hf
    exact List.any_eq_true.mpr ⟨x, hx, hpred⟩

lemma dfLookup_filter_self (A : DF) (n : String) :
    dfLookup (A.filter (fun p => !(p.1 == n))) n = none := by
  unfold dfLookup
  have hf : (A.filter (fun p => !(p.1 == n))).find? (fun p => p.1 == n) = none := by
    rw [List.find?_eq_none]
    intro x hx
    have := (List.mem_filter.mp hx).2
    simp at this ⊢
    exact this
  rw [hf]
  rfl

lemma dfLookup_filter_other (A : DF) (n : String) {q : String} (hq : q ≠ n) :
    dfLookup (A.filter (fun p => !(p.1 == n))) q = dfLookup A q := by
  unfold dfLookup
  congr 1
  induction A with
  | nil => rfl
  | cons a A ih =>
    by_cases han : a.1 = n
    · rw [List.filter_cons_of_neg (by simp [han]),
        List.find?_cons_of_neg _ (by simp [han]; exact fun hc => hq hc.symm)]
      exact ih
    · rw [List.filter_cons_of_pos (by simp [han])]
      by_cases haq : a.1 = q
      · rw [List.find?_cons_of_pos _ (by simp [haq]),
          List.find?_cons_of_pos _ (by simp [haq])]
      · rw [List.find?_cons_of_neg _ (by simp [haq]),
          List.find?_cons_of_neg _ (by simp [haq])]
        exact ih

lemma foldl_assign_preserve (df : DF) (n : String) (L : List ℕ) (A : DF)
    {q : String} (h : ∀ i ∈ L, genName n i ≠ q) :
    dfLookup (L.foldl
      (fun a i => dfAssign a (genName n i) (expandedCol (origOf df n) i)) A) q
    = dfLookup A q := by
  induction L generalizing A with
  | nil => rfl
  | cons i L ih =>
    rw [List.foldl_cons,
      ih _ (fun j hj => h j (List.mem_cons_of_mem _ hj)),
      dfLookup_assign_other _ _ _ (fun hc => h i (List.mem_cons_self _ _) hc.symm)]

lemma foldl_assign_lookup (df : DF) (n : String) (L : List ℕ) (A : DF)
    (i : ℕ) (hiL : i ∈ L) (hnd : L.Nodup)
    (hinj : ∀ j ∈ L, j ≠ i → genName n j ≠ genName n i) :
    dfLookup (L.foldl
      (fun a i => dfAssign a (genName n i) (expandedCol (origOf df n) i)) A)
      (genName n i) = some (expandedCol (origOf df n) i) := by
  induction L generalizing A with
  | nil => simp at hiL
  | cons j L ih =>
    rw [List.foldl_cons]
    by_cases hij : i = j
    · subst hij
      have hnotL : i ∉ L := (List.nodup_cons.mp hnd).1
      rw [foldl_assign_preserve df n L _
        (fun k hk => hinj k (List.mem_cons_of_mem _ hk)
          (fun hc => hnotL (hc ▸ hk)))]
      exact dfLookup_assign_self _ _ _
    · rcases List.mem_cons.mp hiL with h | h
      · exact absurd h hij
      · exact ih _ h (List.Nodup.of_cons hnd)
          (fun k hk => hinj k (List.mem_cons_of_mem _ hk))

lemma expandCol_ok (df A : DF) (n : String) (m : ℕ)
    (hpresent : (dfLookup A n).isSome)
    (hfresh : ∀ i ∈ List.range m, genName n i ≠ n) :
    expandCol df A n m =
      Except.ok ((assignAll df A n m).filter (fun p => !(p.1 == n))) := by
  unfold expandCol
  refine dfDropCol_ok ?_
  show (dfLookup (assignAll df A n m) n).isSome
  unfold assignAll
  rw [foldl_assign_preserve df n _ _ hfresh]
  exact hpresent

/-- The net effect on the accumulator of expanding one column. -/
def applyExpand (df A : DF) (n : String) (m : ℕ) : DF :=
  (assignAll df A n m).filter (fun p => !(p.1 == n))

/-- Decidable form of `matchedCol`. -/
def matchedB (df : DF) (pfxs : List String) (n : String) : Bool :=
  hasListVal (origOf df n) && pfxs.any (fun pfx => nameStartsWith n pfx)

instance (df : DF) (pfxs : List String) (n : String) :
    Decidable (matchedCol df pfxs n) :=
  inferInstanceAs (Decidable (_ ∧ _))

lemma matchedB_iff {df : DF} {pfxs : List String} {n : String} :
    matchedB df pfxs n = true ↔ matchedCol df pfxs n := by
  unfold matchedB matchedCol
  rw [Bool.and_eq_true, List.any_eq_true]

lemma expandStep_no_match (df : DF) (pfxs : List String) (m : ℕ)
    (s : Except Unit DF) (n : String)
    (h : ∀ pfx ∈ pfxs,
      (nameStartsWith n pfx && hasListVal (origOf df n)) = false) :
    expandStep df pfxs m s n = s := by
  unfold expandStep
  induction pfxs generalizing s with
  | nil => rfl
  | cons p ps ih =>
    have hp := h p (List.mem_cons_self _ _)
    rw [List.foldl_cons]
    have hstep : (match s with
        | Except.error e => Except.error e
        | Except.ok d =>
          if nameStartsWith n p && hasListVal (origOf df n) then
            expandCol df d n m
          else Except.ok d) = s := by
      cases s with
      | error e => rfl
      | ok d => simp [hp]
    rw [hstep]
    exact ih s (fun q hq => h q (List.mem_cons_of_mem _ hq))

lemma expandStep_one_match (df : DF) (pfxs : List String) (m : ℕ) (A : DF)
    (n : String)
    (hcount : pfxs.countP
      (fun pfx => nameStartsWith n pfx && hasListVal (origOf df n)) ≤ 1)
    (hex : ∃ pfx ∈ pfxs,
      (nameStartsWith n pfx && hasListVal (origOf df n)) = true)
    (hpresent : (dfLookup A n).isSome)
    (hfresh : ∀ i ∈ List.range m, genName n i ≠ n) :
    expandStep df pfxs m (Except.ok A) n =
      Except.ok (applyExpand df A n m) := by
  induction pfxs with
  | nil =>
    obtain ⟨p, hp, _⟩ := hex
    simp at hp
  | cons p ps ih =>
    show List.foldl _ _ (p :: ps) = _
    rw [List.foldl_cons]
    by_cases hc : (nameStartsWith n p && hasListVal (origOf df n)) = true
    · have hzero : ∀ q ∈ ps,
          (nameStartsWith n q && hasListVal (origOf df n)) = false := by
        rw [List.countP_cons] at hcount
        simp only [hc, if_pos] at hcount
        have : ps.countP
            (fun pfx => nameStartsWith n pfx && hasListVal (origOf df n)) = 0 := by
          omega
        intro q hq
        have := List.countP_eq_zero.mp this q hq
        simpa using this
      have hfirst : (match (Except.ok A : Except Unit DF) with
          | Except.error e => Except.error e
          | Except.ok d =>
            if nameStartsWith n p && hasListVal (origOf df n) then
              expandCol df d n m
            else Except.ok d) = Except.ok (applyExpand df A n m) := by
        simp only [hc, if_pos]
        exact expandCol_ok df A n m hpresent hfresh
      rw [hfirst]
      exact expandStep_no_match df ps m _ n hzero
    · have hfirst : (match (Except.ok A : Except Unit DF) with
          | Except.error e => Except.error e
          | Except.ok d =>
            if nameStartsWith n p && hasListVal (origOf df n) then
              expandCol df d n m
            else Except.ok d) = Except.ok A := by
        simp only [Bool.not_eq_true] at hc
        simp [hc]
      rw [hfirst]
      refine ih ?_ ?_
      · rw [List.countP_cons] at hcount
        omega
      · obtain ⟨q, hq, hqc⟩ := hex
        rcases List.mem_cons.mp hq with rfl | hq'
        · exact absurd hqc hc
        · exact ⟨q, hq', hqc⟩

lemma applyExpand_lookup_self (df A : DF) (n : String) (m : ℕ) :
    dfLookup (applyExpand df A n m) n = none :=
  dfLookup_filter_self _ _

lemma applyExpand_lookup_gen (df A : DF) (n : String) (m : ℕ) (i : ℕ)
    (hi : i < m) (hne : genName n i ≠ n)
    (hinj : ∀ j, j < m → j ≠ i → genName n j ≠ genName n i) :
    dfLookup (applyExpand df A n m) (genName n i) =
      some (expandedCol (origOf df n) i) := by
  unfold applyExpand
  rw [dfLookup_filter_other _ _ hne]
  unfold assignAll
  exact foldl_assign_lookup df n (List.range m) A i (List.mem_range.mpr hi)
    (List.nodup_range m) (fun j hj hji => hinj j (List.mem_range.mp hj) hji)

lemma applyExpand_lookup_other (df A : DF) (n : String) (m : ℕ) {q : String}
    (hq : q ≠ n) (hgen : ∀ i, i < m → genName n i ≠ q) :
    dfLookup (applyExpand df A n m) q = dfLookup A q := by
  unfold applyExpand
  rw [dfLookup_filter_other _ _ hq]
  unfold assignAll
  exact foldl_assign_preserve df n _ _ (fun i hi => hgen i (List.mem_range.mp hi))

/-- The loop invariant of the outer column fold: `S` is the list of
already-expanded columns. -/
structure InvState (df : DF) (pfxs : List String) (m : ℕ) (A : DF)
    (S : List String) : Prop where
  mem_names : ∀ n ∈ S, n ∈ df.map Prod.fst
  mem_matched : ∀ n ∈ S, matchedCol df pfxs n
  lookup_dropped : ∀ n ∈ S, dfLookup A n = none
  lookup_gen : ∀ n ∈ S, ∀ i, i < m →
    dfLookup A (genName n i) = some (expandedCol (origOf df n) i)
  lookup_other : ∀ q : String,
    (∀ n ∈ S, q ≠ n ∧ ∀ i, i < m → q ≠ genName n i) →
    dfLookup A q = dfLookup df q

lemma expandir_run (df : DF) (pfxs : List String) (m : ℕ)
    (H1 : (df.map Prod.fst).Nodup)
    (H2 : ∀ n ∈ df.map Prod.fst, hasListVal (origOf df n) = true →
      pfxs.countP (fun pfx => nameStartsWith n pfx) ≤ 1)
    (H3 : ∀ n ∈ df.map Prod.fst, matchedCol df pfxs n →
      ∀ i, i < m → ∀ n' ∈ df.map Prod.fst, genName n i ≠ n')
    (H4 : ∀ n ∈ df.map Prod.fst, ∀ n' ∈ df.map Prod.fst,
      matchedCol df pfxs n → matchedCol df pfxs n' →
      ∀ i, i < m → ∀ j, j < m → (n ≠ n' ∨ i ≠ j) →
        genName n i ≠ genName n' j) :
    ∀ (L P S : List String) (A : DF),
      df.map Prod.fst = P ++ L → (∀ s ∈ S, s ∈ P) →
      InvState df pfxs m A S →
      ∃ out, L.foldl (expandStep df pfxs m) (Except.ok A) = Except.ok out ∧
        InvState df pfxs m out (S ++ L.filter (matchedB df pfxs)) := by
  intro L
  induction L with
  | nil =>
    intro P S A hsplit hSP hinv
    exact ⟨A, rfl, by simpa using hinv⟩
  | cons n L ih =>
    intro P S A hsplit hSP hinv
    have hnmem : n ∈ df.map Prod.fst := by
      rw [hsplit]
      exact List.mem_append_right _ (List.mem_cons_self _ _)
    have hnP : n ∉ P := by
      have hnd := H1
      rw [hsplit] at hnd
      have hdisj := (List.nodup_append.mp hnd).2.2
      intro hc
      exact hdisj hc (List.mem_cons_self _ _)
    have hnS : n ∉ S := fun hc => hnP (hSP n hc)
    rw [List.foldl_cons]
    by_cases hm : matchedB df pfxs n = true
    · have hmatched : matchedCol df pfxs n := matchedB_iff.mp hm
      have hAn : dfLookup A n = dfLookup df n := by
        refine hinv.lookup_other n ?_
        intro n'' hn''
        refine ⟨fun hc => hnS (hc ▸ hn''), ?_⟩
        intro i hi hc
        exact H3 n'' (hinv.mem_names n'' hn'') (hinv.mem_matched n'' hn'') i hi
          n hnmem hc.symm
      have hpresent : (dfLookup A n).isSome := by
        rw [hAn]
        exact dfLookup_isSome_of_mem hnmem
      have hfresh : ∀ i ∈ List.range m, genName n i ≠ n :=
        fun i hi => H3 n hnmem hmatched i (List.mem_range.mp hi) n hnmem
      have hstep : expandStep df pfxs m (Except.ok A) n =
          Except.ok (applyExpand df A n m) := by
        refine expandStep_one_match df pfxs m A n ?_ ?_ hpresent hfresh
        · have hcnt := H2 n hnmem hmatched.1
          have heqf : (fun pfx => nameStartsWith n pfx &&
              hasListVal (origOf df n)) =
              (fun pfx => nameStartsWith n pfx) := by
            funext pfx
            rw [hmatched.1, Bool.and_true]
          rw [heqf]
          exact hcnt
        · obtain ⟨pfx, hpmem, hsw⟩ := hmatched.2
          exact ⟨pfx, hpmem, by rw [hsw, hmatched.1]; rfl⟩
      rw [hstep]
      have hinv' : InvState df pfxs m (applyExpand df A n m) (S ++ [n]) := by
        refine ⟨?_, ?_, ?_, ?_, ?_⟩
        · intro n'' h''
          rcases List.mem_append.mp h'' with h'' | h''
          · exact hinv.mem_names n'' h''
          · rw [List.mem_singleton.mp h'']
            exact hnmem
        · intro n'' h''
          rcases List.mem_append.mp h'' with h'' | h''
          · exact hinv.mem_matched n'' h''
          · rw [List.mem_singleton.mp h'']
            exact hmatched
        · intro n'' h''
          rcases List.mem_append.mp h'' with h'' | h''
          · rw [applyExpand_lookup_other df A n m
              (fun hc => hnS (hc ▸ h''))
              (fun i hi => H3 n hnmem hmatched i hi n''
                (hinv.mem_names n'' h''))]
            exact hinv.lookup_dropped n'' h''
          · rw [List.mem_singleton.mp h'']
            exact applyExpand_lookup_self df A n m
        · intro n'' h'' i hi
          rcases List.mem_append.mp h'' with h'' | h''
          · rw [applyExpand_lookup_other df A n m
              (H3 n'' (hinv.mem_names n'' h'') (hinv.mem_matched n'' h'')
                i hi n hnmem)
              (fun j hj => H4 n hnmem n'' (hinv.mem_names n'' h'') hmatched
                (hinv.mem_matched n'' h'') j hj i hi
                (Or.inl (fun hc => hnS (hc ▸ h''))))]
            exact hinv.lookup_gen n'' h'' i hi
          · rw [List.mem_singleton.mp h'']
            refine applyExpand_lookup_gen df A n m i hi
              (H3 n hnmem hmatched i hi n hnmem) ?_
            intro j hj hji
            exact H4 n hnmem n hnmem hmatched hmatched j hj i hi (Or.inr hji)
        · intro q hq
          have hqn := hq n (List.mem_append_right _ (List.mem_singleton.mpr rfl))
          rw [applyExpand_lookup_other df A n m hqn.1
            (fun i hi hc => hqn.2 i hi hc.symm)]
          exact hinv.lookup_other q (fun n'' h'' =>
            hq n'' (List.mem_append_left _ h''))
      obtain ⟨out, hout, hinvout⟩ := ih (P ++ [n]) (S ++ [n])
        (applyExpand df A n m) (by rw [hsplit]; simp)
        (by
          intro s hs
          rcases List.mem_append.mp hs with hs | hs
          · exact List.mem_append_left _ (hSP s hs)
          · exact List.mem_append_right _ hs)
        hinv'
      refine ⟨out, hout, ?_⟩
      rw [List.filter_cons_of_pos hm]
      have hrearr : S ++ n :: List.filter (matchedB df pfxs) L =
          (S ++ [n]) ++ List.filter (matchedB df pfxs) L := by simp
      rw [hrearr]
      exact hinvout
    · have hall : ∀ pfx ∈ pfxs,
          (nameStartsWith n pfx && hasListVal (origOf df n)) = false := by
        intro pfx hp
        cases hsw : nameStartsWith n pfx with
        | false => simp
        | true =>
          cases hhl : hasListVal (origOf df n) with
          | false => simp
          | true =>
            exfalso
            exact hm (matchedB_iff.mpr ⟨hhl, pfx, hp, hsw⟩)
      rw [expandStep_no_match df pfxs m _ n hall]
      obtain ⟨out, hout, hinvout⟩ := ih (P ++ [n]) S A (by rw [hsplit]; simp)
        (fun s hs => List.mem_append_left _ (hSP s hs)) hinv
      refine ⟨out, hout, ?_⟩
      rw [List.filter_cons_of_neg (by simp [hm])]
      exact hinvout

end ExpandCols

open ExpandCols in
/-- C9 as stated is false: when a column's name starts with two of the
prefixes, the inner loop expands it twice and the second
`df.drop(columns=[col])` raises `KeyError`, so no DataFrame is
returned at all.  Concretely: one column `"ab"` holding a list, with
prefix list `["a", "ab"]`. -/
theorem c9_counterexample_double_drop :
    expandir_listas_em_colunas [(("ab"), [Val.vList [5]])]
      [("a"), ("ab")] 1 = Except.error () := rfl

open ExpandCols in
/-- C9 (amended): provided the column names are distinct, each
list-holding column's name starts with at most one of the prefixes, and
the generated names `<name>1 … <name>max_itens` collide neither with
original column names nor with each other, `expandir_listas_em_colunas`
returns a DataFrame in which every column whose name starts with one of
the prefixes and that contains a list value is replaced by `max_itens`
columns `<name>i` holding the `i`-th list element (`None` when the
row's cell is not a list of length at least `i`), and every other
column of the DataFrame is unchanged. -/
theorem c9_expandir_listas_em_colunas (df : DF) (pfxs : List String) (m : ℕ)
    (H1 : (df.map Prod.fst).Nodup)
    (H2 : ∀ n ∈ df.map Prod.fst, hasListVal (origOf df n) = true →
      pfxs.countP (fun pfx => nameStartsWith n pfx) ≤ 1)
    (H3 : ∀ n ∈ df.map Prod.fst, matchedCol df pfxs n →
      ∀ i, i < m → ∀ n' ∈ df.map Prod.fst, genName n i ≠ n')
    (H4 : ∀ n ∈ df.map Prod.fst, ∀ n' ∈ df.map Prod.fst,
      matchedCol df pfxs n → matchedCol df pfxs n' →
      ∀ i, i < m → ∀ j, j < m → (n ≠ n' ∨ i ≠ j) →
        genName n i ≠ genName n' j) :
    ∃ out, expandir_listas_em_colunas df pfxs m = Except.ok out ∧
      (∀ n ∈ df.map Prod.fst, matchedCol df pfxs n →
        dfLookup out n = none ∧
        ∀ i, i < m →
          dfLookup out (genName n i) = some (expandedCol (origOf df n) i)) ∧
      (∀ n ∈ df.map Prod.fst, ¬ matchedCol df pfxs n →
        dfLookup out n = dfLookup df n) := by
  have hinit : InvState df pfxs m df [] := by
    refine ⟨by simp, by simp, by simp, by simp, ?_⟩
    intro q _
    rfl
  obtain ⟨out, hout, hinv⟩ := expandir_run df pfxs m H1 H2 H3 H4
    (df.map Prod.fst) [] [] df rfl (by simp) hinit
  refine ⟨out, hout, ?_, ?_⟩
  · intro n hn hmat
    have hmem : n ∈ ([] : List String) ++
        (df.map Prod.fst).filter (matchedB df pfxs) := by
      simp only [List.nil_append, List.mem_filter]
      exact ⟨hn, matchedB_iff.mpr hmat⟩
    exact ⟨hinv.lookup_dropped n hmem,
      fun i hi => hinv.lookup_gen n hmem i hi⟩
  · intro n hn hnm
    refine hinv.lookup_other n ?_
    intro n'' h''
    have h''2 : n'' ∈ (df.map Prod.fst).filter (matchedB df pfxs) := by
      simpa only [List.nil_append] using h''
    have h2 := List.mem_filter.mp h''2
    have hmat'' : matchedCol df pfxs n'' := matchedB_iff.mp h2.2
    refine ⟨?_, ?_⟩
    · rintro rfl
      exact hnm hmat''
    · intro i hi hc
      exact H3 n'' h2.1 hmat'' i hi n hn hc.symm

open ExpandCols in
/-- Witness for C9 (amended): a frame with a list column `dts_a` and a
plain column `x`, prefixes `["dts_a", "dts_d"]`, `max_itens = 2`. -/
theorem c9_expandir_listas_em_colunas_witness :
    ∃ out, expandir_listas_em_colunas
        [(("dts_a"), [Val.vList [1, 2], Val.vNone]),
         (("x"), [Val.vInt 7, Val.vInt 8])]
        [("dts_a"), ("dts_d")] 2 = Except.ok out ∧
      (∀ n ∈ ([(("dts_a"), [Val.vList [1, 2], Val.vNone]),
          (("x"), [Val.vInt 7, Val.vInt 8])] : DF).map Prod.fst,
        matchedCol [(("dts_a"), [Val.vList [1, 2], Val.vNone]),
          (("x"), [Val.vInt 7, Val.vInt 8])] [("dts_a"), ("dts_d")] n →
        dfLookup out n = none ∧
        ∀ i, i < 2 →
          dfLookup out (genName n i) = some (expandedCol
            (origOf [(("dts_a"), [Val.vList [1, 2], Val.vNone]),
              (("x"), [Val.vInt 7, Val.vInt 8])] n) i)) ∧
      (∀ n ∈ ([(("dts_a"), [Val.vList [1, 2], Val.vNone]),
          (("x"), [Val.vInt 7, Val.vInt 8])] : DF).map Prod.fst,
        ¬ matchedCol [(("dts_a"), [Val.vList [1, 2], Val.vNone]),
          (("x"), [Val.vInt 7, Val.vInt 8])] [("dts_a"), ("dts_d")] n →
        dfLookup out n = dfLookup
          [(("dts_a"), [Val.vList [1, 2], Val.vNone]),
           (("x"), [Val.vInt 7, Val.vInt 8])] n) :=
  c9_expandir_listas_em_colunas
    [(("dts_a"), [Val.vList [1, 2], Val.vNone]),
     (("x"), [Val.vInt 7, Val.vInt 8])]
    [("dts_a"), ("dts_d")] 2
    (by decide) (by decide) (by decide) (by decide)

open ExpandCols in
example : expandir_listas_em_colunas
    [(("dts_a"), [Val.vList [1, 2], Val.vNone]),
     (("x"), [Val.vInt 7, Val.vInt 8])]
    [("dts_a"), ("dts_d")] 2 =
  Except.ok
    [(("x"), [Val.vInt 7, Val.vInt 8]),
     (("dts_a1"), [Val.vInt 1, Val.vNone]),
     (("dts_a2"), [Val.vInt 2, Val.vNone])] := rfl

end VegetationLoss
